import Mathlib

/-!
# Verification of the `traced` vocabulary-acquisition engine

A shallow embedding, in Lean 4, of the scoring, promotion, noise-word,
auto-trace and review-selection logic of the `traced` browser extension
(`src/lib/domain-utils.ts`, `src/background/router/handlers/*.ts`,
`src/background/storage/db.ts` and the wordbank loader / page-scan handler).

Modelling conventions:
* JavaScript `number` values are modelled as `ℚ` (all values computed by the
  engine are finite decimals; no claim here depends on IEEE-754 rounding).
* Timestamps (`Date.now()`) are `ℕ` milliseconds and are passed explicitly.
* `crypto.randomUUID()` is modelled by deterministic fresh names; no theorem
  below depends on the identity of a freshly generated id.
* Dexie tables are lists in primary-key insertion order; `where(...).first()`
  is `List.find?`; `Table.filter(...).toArray()` iterates in primary-key
  order, which for the order-sensitive theorems is an explicit hypothesis.
* Thrown `AppError`s are an explicit error value; a handler returns its
  (possibly unchanged) state together with `Except`.
-/

namespace Traced

/-! ## Scoring (src/lib/domain-utils.ts)

`SCORING_WEIGHTS[e.source] || 0.1`: a record lookup with fallback `0.1`
(no listed weight is zero, so JS falsiness coincides with absence). -/

/-- `Math.max` on engine numbers, written with a decidable `if` so that the
kernel can evaluate concrete states. -/
def jsMax (a b : ℚ) : ℚ := if a ≤ b then b else a

/-- `Math.min`, same convention as `jsMax`. -/
def jsMin (a b : ℚ) : ℚ := if a ≤ b then a else b

lemma jsMax_eq_max (a b : ℚ) : jsMax a b = max a b := by
  unfold jsMax
  split <;> [exact (max_eq_right (by assumption)).symm;
             exact (max_eq_left (le_of_not_le (by assumption))).symm]

lemma jsMin_eq_min (a b : ℚ) : jsMin a b = min a b := by
  unfold jsMin
  split <;> [exact (min_eq_left (by assumption)).symm;
             exact (min_eq_right (le_of_not_le (by assumption))).symm]

def scoringWeight (s : String) : ℚ :=
  if s = "scan" then 1/10
  else if s = "lookup" then 1
  else if s = "trace" then 1
  else if s = "manual" then 2
  else if s = "import" then 1/2
  else if s = "wordbank" then 1/10
  else if s = "rate_known" then 5
  else if s = "rate_familiar" then 3
  else if s = "rate_unknown" then 1
  else 1/10

/-- `calculateWeightedScore(encounters, multiplier)`: a left fold over the
encounter sources; each step adds `weight * multiplier` and clamps the
running total at `0` (`Math.max(0, sum + points)`). -/
def calculateWeightedScore (encounters : List String) (multiplier : ℚ) : ℚ :=
  encounters.foldl (fun sum src => jsMax 0 (sum + scoringWeight src * multiplier)) 0

lemma scoringWeight_nonneg (s : String) : 0 ≤ scoringWeight s := by
  unfold scoringWeight
  split_ifs <;> norm_num

lemma clampFold_eq_sum (m : ℚ) (hm : 0 ≤ m) :
    ∀ (l : List String) (acc : ℚ), 0 ≤ acc →
      l.foldl (fun sum src => jsMax 0 (sum + scoringWeight src * m)) acc
        = acc + (l.map (fun s => scoringWeight s * m)).sum
  | [], _, _ => by simp
  | s :: l, acc, hacc => by
      have hterm : 0 ≤ scoringWeight s * m := mul_nonneg (scoringWeight_nonneg s) hm
      have h0 : 0 ≤ acc + scoringWeight s * m := add_nonneg hacc hterm
      simp only [List.foldl_cons, List.map_cons, List.sum_cons]
      rw [jsMax_eq_max, max_eq_right h0, clampFold_eq_sum m hm l _ h0]
      ring

lemma calculateWeightedScore_eq_sum (l : List String) (m : ℚ) (hm : 0 ≤ m) :
    calculateWeightedScore l m = (l.map (fun s => scoringWeight s * m)).sum := by
  unfold calculateWeightedScore
  rw [clampFold_eq_sum m hm l 0 le_rfl, zero_add]

/-- C1: for every encounter list and traced flag, the familiarity score is the
sum over encounters of `weight(source) * multiplier` with `multiplier = 2`
when traced else `1`; the weight table is scan (page-scan) 0.1,
lookup (dictionary-lookup) 1.0, trace (explicit-trace) 1.0,
manual (manual-entry) 2.0, import (bulk-import) 0.5,
wordbank (wordbank-seed) 0.1, rate_known 5.0, rate_familiar 3.0,
rate_unknown 1.0, with fallback 0.1 for unknown sources; the running total is
clamped at 0 after each term (the clamp never fires since every term is
nonnegative); 5 explicit-trace encounters plus one page-scan encounter with
`traced = true` score exactly 10.2; and the result is always nonnegative. -/
theorem calculateWeightedScore_spec (encs : List String) (traced : Bool) :
    (calculateWeightedScore encs (if traced then 2 else 1)
        = (encs.map (fun s => scoringWeight s * (if traced then 2 else 1))).sum)
    ∧ 0 ≤ calculateWeightedScore encs (if traced then 2 else 1)
    ∧ scoringWeight "scan" = 1/10 ∧ scoringWeight "lookup" = 1
    ∧ scoringWeight "trace" = 1 ∧ scoringWeight "manual" = 2
    ∧ scoringWeight "import" = 1/2 ∧ scoringWeight "wordbank" = 1/10
    ∧ scoringWeight "rate_known" = 5 ∧ scoringWeight "rate_familiar" = 3
    ∧ scoringWeight "rate_unknown" = 1
    ∧ (∀ s : String,
        s ∉ ["scan", "lookup", "trace", "manual", "import", "wordbank",
             "rate_known", "rate_familiar", "rate_unknown"] →
        scoringWeight s = 1/10)
    ∧ calculateWeightedScore ["trace", "trace", "trace", "trace", "trace", "scan"] 2
        = 102/10 := by
  have hm : (0 : ℚ) ≤ (if traced then 2 else 1) := by split <;> norm_num
  refine ⟨calculateWeightedScore_eq_sum encs _ hm, ?_, by simp [scoringWeight],
    by simp [scoringWeight], by simp [scoringWeight], by simp [scoringWeight],
    by simp [scoringWeight], by simp [scoringWeight], by simp [scoringWeight],
    by simp [scoringWeight], by simp [scoringWeight], ?_,
    by simp [calculateWeightedScore, scoringWeight, jsMax]; norm_num⟩
  · rw [calculateWeightedScore_eq_sum encs _ hm]
    exact List.sum_nonneg (by
      intro x hx
      simp only [List.mem_map] at hx
      obtain ⟨s, _, rfl⟩ := hx
      exact mul_nonneg (scoringWeight_nonneg s) hm)
  · intro s hs
    simp only [List.mem_cons, List.not_mem_nil, or_false] at hs
    push_neg at hs
    obtain ⟨h1, h2, h3, h4, h5, h6, h7, h8, h9⟩ := hs
    simp [scoringWeight, h1, h2, h3, h4, h5, h6, h7, h8, h9]

/-- C1 witness: the main theorem evaluated at the spec's worked example. -/
theorem calculateWeightedScore_spec_example :
    calculateWeightedScore ["trace", "trace", "trace", "trace", "trace", "scan"] 2
      = 102/10 :=
  (calculateWeightedScore_spec [] true).2.2.2.2.2.2.2.2.2.2.2.2

/-! ## Data model (src/background/storage/db.ts)

`VocabEntity`, `EncounterEntity` and `LemmaStatEntity`, restricted to the
fields the verified operations read or write.  Optional JS fields that default
to a falsy value are given those defaults (`familiarityScore ?? 0`,
`isKnown`/`scoreLocked`/`isTraced`/`noiseManaged` falsy, `nextReviewDate ?? 0`
with `0` meaning "unset", exactly as `handleDrawCard` treats it). -/

structure Vocab where
  vocabId : String
  lemma_ : String
  surface : String := ""
  language : String := "en"
  familiarityScore : ℚ := 0
  isKnown : Bool := false
  scoreLocked : Bool := false
  isTraced : Bool := false
  noiseManaged : Bool := false
  deletedAt : Option Nat := none
  nextReviewDate : Nat := 0
  lastSeenAt : Option Nat := none
  createdAt : Nat := 0
  updatedAt : Nat := 0
  proficiency : Nat := 0
  deriving Repr, DecidableEq

structure Encounter where
  encounterId : String
  vocabId : String
  source : String
  surface : String := ""
  normalizedSurface : String := ""
  pageUrl : String := ""
  contextSentence : Option String := none
  createdAt : Nat := 0
  updatedAt : Nat := 0
  deriving Repr, DecidableEq

structure LemmaStat where
  lemmaStatId : String
  lemma_ : String
  normalizedLemma : String
  language : String := "en"
  totalCount : Nat := 0
  pageCount : Nat := 0
  inWordbank : Bool := false
  dictRank : Option Nat := none
  firstSeenAt : Nat := 0
  promotedVocabId : Option String := none
  promotedAt : Option Nat := none
  promotionReason : Option String := none
  cooldownUntil : Option Nat := none
  deriving Repr, DecidableEq

/-- A word of an enabled wordbank, as produced by `getEnabledWordbankWords`
(handlers/wordbanks.ts): keyed by normalized form, carrying the winning
wordbank id, display fields, and every wordbank id that lists the word. -/
structure WbWord where
  wordbankId : String
  lemma_ : String
  surface : String
  sourceWordbankIds : List String
  deriving Repr, DecidableEq

/-- The engine state: the Dexie tables the verified handlers touch, each in
primary-key insertion order.  `traces` keeps only the normalized source text
of each trace (all the modelled code reads).  `noiseConfigHash` is the
`noiseConfigHash` settings key. -/
structure NoiseCfgKey where
  sourceWordbankId : String
  add : Finset String
  remove : Finset String
  deriving DecidableEq

structure DB where
  vocabulary : List Vocab := []
  encounters : List Encounter := []
  lemmaStats : List LemmaStat := []
  traces : List String := []
  noiseConfigHash : Option NoiseCfgKey := none

/-- Read-only environment: the dictionary file (`dictionaryService.lookup`,
returning the entry's rank) and the URL parser (`new URL(u).host`, `none`
when the constructor would throw). -/
structure Env where
  dictRank : String → Option Nat := fun _ => none
  urlHost : String → Option String := fun _ => some ""

inductive EngineError where
  | validation (msg : String)
  | notFound (msg : String)
  deriving Repr, DecidableEq

/-! ## Shared helpers over the list-modelled tables -/

def findVocab (vocabId : String) (db : DB) : Option Vocab :=
  db.vocabulary.find? (fun v => v.vocabId == vocabId)

/-- `db.vocabulary.update(id, changes)`: apply `f` to every row whose primary
key matches (at most one in a well-formed table). -/
def updateVocab (vocabId : String) (f : Vocab → Vocab) (db : DB) : DB :=
  { db with vocabulary := db.vocabulary.map (fun v => if v.vocabId == vocabId then f v else v) }

def encountersOf (vocabId : String) (db : DB) : List Encounter :=
  db.encounters.filter (fun e => e.vocabId == vocabId)

/-- The traced multiplier: `vocab.isTraced ? 2 : 1`. -/
def multiplierOf (isTraced : Bool) : ℚ := if isTraced then 2 else 1

def KNOWN_THRESHOLD : ℚ := 100

/-! ## Score recomputation and noise-lock reset (handlers/vocab.ts) -/

/-- `recalcVocabScore`: no-op when the entry is missing, soft-deleted or
score-locked; otherwise recompute the weighted score over all encounters of
the entry and store `familiarityScore` and `isKnown = score >= 100`. -/
def recalcVocabScore (vocabId : String) (now : Nat) (db : DB) : DB :=
  match findVocab vocabId db with
  | none => db
  | some v =>
    if v.deletedAt.isSome ∨ v.scoreLocked then db
    else
      let score := calculateWeightedScore ((encountersOf vocabId db).map (·.source))
        (multiplierOf v.isTraced)
      updateVocab vocabId (fun w =>
        { w with familiarityScore := score,
                 isKnown := decide (KNOWN_THRESHOLD ≤ score),
                 updatedAt := now }) db

/-- `resetNoiseWordFields`: unlock a noise word. -/
def resetNoiseWordFields (vocabId : String) (now : Nat) (db : DB) : DB :=
  updateVocab vocabId (fun v =>
    { v with scoreLocked := false, familiarityScore := 0, isKnown := false,
             noiseManaged := false, updatedAt := now }) db

/-- `handleRateWord`: validation on missing id, not-found, and the
score-locked guard, then one `rate_*` encounter insert and a recompute.
Returns the (possibly unchanged) state together with the thrown error or the
`{ newScore, isKnown }` result. -/
def handleRateWord (vocabId : String) (rating : String) (newEncounterId : String)
    (now : Nat) (db : DB) : DB × Except EngineError (ℚ × Bool) :=
  if vocabId = "" then (db, .error (.validation "vocabId is required"))
  else match findVocab vocabId db with
  | none => (db, .error (.notFound "vocabulary not found"))
  | some vocab =>
    if vocab.scoreLocked then (db, .error (.validation "cannot rate a score-locked word"))
    else
      let enc : Encounter :=
        { encounterId := newEncounterId, vocabId := vocabId, surface := vocab.surface
          source := "rate_" ++ rating, pageUrl := "", createdAt := now, updatedAt := now }
      let db1 : DB := { db with encounters := db.encounters ++ [enc] }
      let newScore := calculateWeightedScore ((encountersOf vocabId db1).map (·.source))
        (multiplierOf vocab.isTraced)
      let isKnown := decide (KNOWN_THRESHOLD ≤ newScore)
      (updateVocab vocabId (fun w =>
        { w with familiarityScore := newScore, isKnown := isKnown, updatedAt := now }) db1,
       .ok (newScore, isKnown))

/-- `handleToggleTraceWord`: flip `isTraced`, recompute the score with the new
multiplier; never touches `scoreLocked`.  Early-exits when the entry is
already in the requested state. -/
def handleToggleTraceWord (vocabId : String) (traced : Bool) (now : Nat) (db : DB) :
    DB × Except EngineError Bool :=
  if vocabId = "" then (db, .error (.validation "vocabId is required"))
  else match findVocab vocabId db with
  | none => (db, .error (.notFound "vocabulary not found"))
  | some vocab =>
    if vocab.isTraced = traced then (db, .ok traced)
    else
      let newScore := calculateWeightedScore ((encountersOf vocabId db).map (·.source))
        (multiplierOf traced)
      let isKnown := decide (KNOWN_THRESHOLD ≤ newScore)
      (updateVocab vocabId (fun w =>
        { w with isTraced := traced, familiarityScore := newScore, isKnown := isKnown,
                 updatedAt := now }) db,
       .ok traced)

/-- `handleUnlockNoiseWord`: validation / not-found / not-locked guards, then
`resetNoiseWordFields`. -/
def handleUnlockNoiseWord (vocabId : String) (now : Nat) (db : DB) :
    DB × Except EngineError Unit :=
  if vocabId = "" then (db, .error (.validation "vocabId is required"))
  else match findVocab vocabId db with
  | none => (db, .error (.notFound "vocabulary not found"))
  | some vocab =>
    if ¬vocab.scoreLocked then (db, .error (.validation "word is not locked"))
    else (resetNoiseWordFields vocabId now db, .ok ())

/-! ## Lemma normalization (src/lib/domain-utils.ts)

`input.toLowerCase().trim().replace(/^[^\p{L}\p{N}]+|[^\p{L}\p{N}]+$/gu, '')`:
lowercase, trim, strip the leading and trailing runs of non-alphanumeric
characters.  The Unicode letter/number classes are modelled by
`Char.isAlphanum`, adequate for the ASCII lemmas this development uses. -/

def isLemmaChar (c : Char) : Bool := c.isAlphanum

/-- `input.toLowerCase().trim()` then the regex strip, computed over the
character list (extensionally `String.toLower`/`String.trim`, but structurally
recursive so that the kernel can evaluate concrete inputs). -/
def normalizeLemma (s : String) : String :=
  let lowered := s.toList.map Char.toLower
  let trimmed := ((lowered.dropWhile Char.isWhitespace).reverse.dropWhile
    Char.isWhitespace).reverse
  let stripped := trimmed.dropWhile (fun c => ¬isLemmaChar c)
  String.mk (stripped.reverse.dropWhile (fun c => ¬isLemmaChar c)).reverse

/-- JS `!str.trim()`: the string contains no non-whitespace character. -/
def strBlank (s : String) : Bool := s.toList.all Char.isWhitespace

/-- JS `a || b` on an optional string. -/
def jsOrStr (a : Option String) (b : String) : String :=
  match a with
  | some s => if s = "" then b else s
  | none => b

/-! ## Encounter recording (handlers/encounters.ts, handlers/vocab.ts) -/

/-- `handleUpsertVocab` on the payload `handleRecordEncounter` builds for a
new word: `{ lemma, surface, language }` (no `vocabId`, `meaning`,
`proficiency` or `sourceTraceId`).  Finds by `[lemma+language]` and refreshes
the surface, or creates a fresh entry (whose familiarity fields are absent in
JS, i.e. score `0`, flags false). -/
def upsertVocabBasic (lemmaRaw surfaceArg language : String) (newVocabId : String)
    (now : Nat) (db : DB) : DB × Except EngineError Vocab :=
  if strBlank lemmaRaw then (db, .error (.validation "lemma is required"))
  else
    let lem := normalizeLemma lemmaRaw
    match db.vocabulary.find? (fun v => v.lemma_ == lem && v.language == language) with
    | some found =>
      let updated := { found with
        surface := (if surfaceArg ≠ "" then surfaceArg else found.surface),
        updatedAt := now }
      let vs := db.vocabulary.map (fun v => if v.vocabId == found.vocabId then updated else v)
      ({ db with vocabulary := vs }, .ok updated)
    | none =>
      let v : Vocab :=
        { vocabId := newVocabId, lemma_ := lem,
          surface := if surfaceArg ≠ "" then surfaceArg else lemmaRaw,
          language := language, createdAt := now, updatedAt := now }
      ({ db with vocabulary := db.vocabulary ++ [v] }, .ok v)

structure RecordEncounterPayload where
  vocabId : Option String := none
  word : Option String := none
  pageUrl : String := ""
  contextSentence : Option String := none
  source : Option String := none
  language : Option String := none

def DAY_MS : Nat := 24 * 60 * 60 * 1000

/-- The 24-hour per-source de-duplication lookup of `handleRecordEncounter`:
for scan/lookup/wordbank sources, the first encounter of the entry on the
same page with the same source created within the last day. -/
def dedupLookup (p : RecordEncounterPayload) (vid : String) (now : Nat) (db : DB) :
    Option Encounter :=
  if p.source = some "scan" ∨ p.source = some "lookup" ∨ p.source = some "wordbank" then
    (db.encounters.filter (fun e => e.vocabId == vid)).find?
      (fun e => e.pageUrl == p.pageUrl && some e.source == p.source &&
                decide ((now : Int) - (DAY_MS : Int) < (e.createdAt : Int)))
  else none

/-- The tail of `handleRecordEncounter` past the de-duplication check: add
the encounter row, `recalcVocabScore`, and — for a `lookup` encounter on a
still-locked entry with at least two lookup encounters in total —
`resetNoiseWordFields`. -/
def insertEncounterAndRecalc (vid : String) (enc : Encounter) (now : Nat) (db1 : DB) : DB :=
  let db2 : DB := { db1 with encounters := db1.encounters ++ [enc] }
  let db3 := recalcVocabScore vid now db2
  if enc.source == "lookup" then
    match findVocab vid db3 with
    | some v =>
      if v.scoreLocked then
        if 2 ≤ ((encountersOf vid db3).filter (fun e => e.source == "lookup")).length
        then resetNoiseWordFields vid now db3 else db3
      else db3
    | none => db3
  else db3

/-- The page-half of `handleRecordEncounter`, once the vocabulary reference is
resolved: URL-host validation, the 24-hour dedup (which only touches
`updatedAt`), else insert-and-recalc. -/
def recordWithVocab (env : Env) (p : RecordEncounterPayload) (newEncounterId : String)
    (now : Nat) (vid surface : String) (db1 : DB) : DB × Except EngineError Encounter :=
  match env.urlHost p.pageUrl with
  | none => (db1, .error (.validation "invalid pageUrl"))
  | some _pageHost =>
    match dedupLookup p vid now db1 with
    | some recent =>
      ({ db1 with encounters := db1.encounters.map (fun e =>
          if e.encounterId == recent.encounterId then { e with updatedAt := now } else e) },
       .ok recent)
    | none =>
      let enc : Encounter :=
        { encounterId := newEncounterId, vocabId := vid, surface := surface,
          normalizedSurface := normalizeLemma surface, pageUrl := p.pageUrl,
          contextSentence := p.contextSentence,
          source := jsOrStr p.source "scan", createdAt := now, updatedAt := now }
      (insertEncounterAndRecalc vid enc now db1, .ok enc)

/-- `handleRecordEncounter`: pageUrl validation; vocab resolution (upsert for
a bare word, lookup for a given id); then `recordWithVocab`. -/
def handleRecordEncounter (env : Env) (p : RecordEncounterPayload)
    (newVocabId newEncounterId : String) (now : Nat) (db : DB) :
    DB × Except EngineError Encounter :=
  if strBlank p.pageUrl then (db, .error (.validation "pageUrl is required"))
  else
    match p.vocabId with
    | none =>
      match p.word with
      | none => (db, .error (.validation "word or vocabId is required"))
      | some w =>
        if strBlank w then (db, .error (.validation "word or vocabId is required"))
        else
          let r := upsertVocabBasic (normalizeLemma w) w (jsOrStr p.language "en")
            newVocabId now db
          match r.2 with
          | .error e => (r.1, .error e)
          | .ok v => recordWithVocab env p newEncounterId now v.vocabId v.surface r.1
    | some vid =>
      -- pageUrl validated; vocab fetched by id, rejecting missing or deleted
      match findVocab vid db with
      | none => (db, .error (.notFound "vocabulary not found"))
      | some v =>
        if v.deletedAt.isSome then (db, .error (.notFound "vocabulary not found"))
        else recordWithVocab env p newEncounterId now vid
          (jsOrStr p.word (if v.surface ≠ "" then v.surface else v.lemma_)) db

/-- `cleanupOrphanedVocab`: hard-delete the entry when its last encounter is
gone. -/
def cleanupOrphanedVocab (vocabId : String) (db : DB) : DB × Bool :=
  if (encountersOf vocabId db).length = 0 then
    ({ db with vocabulary := db.vocabulary.filter (fun v => v.vocabId != vocabId) }, true)
  else (db, false)

/-- `handleDeleteEncounter`: idempotent delete, orphan cleanup, the
trace-source un-trace branch, then a recompute. -/
def handleDeleteEncounter (encounterId : String) (now : Nat) (db : DB) :
    DB × Except EngineError Bool :=
  if encounterId = "" then (db, .error (.validation "encounterId is required"))
  else match db.encounters.find? (fun e => e.encounterId == encounterId) with
  | none => (db, .ok false)
  | some enc =>
    let db1 : DB := { db with
      encounters := db.encounters.filter (fun e => e.encounterId != encounterId) }
    let r := cleanupOrphanedVocab enc.vocabId db1
    if r.2 then (r.1, .ok true)
    else
      let db3 :=
        if enc.source == "trace" then
          let lem := normalizeLemma
            (if enc.normalizedSurface ≠ "" then enc.normalizedSurface else enc.surface)
          if r.1.traces.any (fun t => normalizeLemma t == lem) then r.1
          else updateVocab enc.vocabId
            (fun v => { v with isTraced := false, updatedAt := now }) r.1
        else r.1
      (recalcVocabScore enc.vocabId now db3, .ok false)

/-! ## Noise-word reconciliation (storage/wordbank-loader section of db.ts) -/

/-- The noise configuration `syncNoiseWordsFromSettings` reads from settings:
the designated noise wordbank id and the two manual lemma sets (already
normalized and de-duplicated, as `toLemmaSet` produces), together with the
`wordbankWords` rows of each wordbank (a table none of the verified
operations writes). -/
structure NoiseCfg where
  sourceWordbankId : String
  manualAdd : Finset String
  manualRemove : Finset String
  wordbankLemmas : String → List String

/-- The memoization key: `JSON.stringify` of the id and the two sorted lists
is injective in exactly these three values, so the key is modelled by the
triple itself. -/
def noiseCfgKey (cfg : NoiseCfg) : NoiseCfgKey :=
  ⟨cfg.sourceWordbankId, cfg.manualAdd, cfg.manualRemove⟩

/-- The noise target set: the designated wordbank's normalized lemmas (when a
wordbank is designated), plus the manual adds, minus the manual removes. -/
def noiseTarget (cfg : NoiseCfg) : Finset String :=
  ((if cfg.sourceWordbankId ≠ "" then
      ((cfg.wordbankLemmas cfg.sourceWordbankId).map normalizeLemma).toFinset
    else ∅) ∪ cfg.manualAdd) \ cfg.manualRemove

/-- One entry of the unlock pass: a locked, reconciler-owned entry that left
the target set or became traced is unlocked (a traced entry keeps its stored
score).  Returns the row and its write count. -/
def noiseUnlockStep (target : Finset String) (now : Nat) (v : Vocab) : Vocab × Nat :=
  if v.scoreLocked ∧ v.noiseManaged ∧ (v.lemma_ ∉ target ∨ v.isTraced) then
    ({ v with scoreLocked := false,
              familiarityScore := if v.isTraced then v.familiarityScore else 0,
              isKnown := false, noiseManaged := false, updatedAt := now }, 1)
  else (v, 0)

/-- The field update the lock pass applies to an existing non-traced entry. -/
def lockUpdate (now : Nat) (u : Vocab) : Vocab :=
  { u with scoreLocked := true, familiarityScore := 100, isKnown := true,
           noiseManaged := true, updatedAt := now }

/-- The `isTraced := true` update of the auto-trace replenisher. -/
def flipTraced (now : Nat) (u : Vocab) : Vocab :=
  { u with isTraced := true, updatedAt := now }

def mkNoiseVocab (lem : String) (now : Nat) : Vocab :=
  { vocabId := "noise:" ++ lem, lemma_ := lem, surface := lem, language := "en",
    familiarityScore := 100, isKnown := true, scoreLocked := true, noiseManaged := true,
    createdAt := now, updatedAt := now }

/-- The lock pass over the target set: lock a matching non-traced entry, skip
a traced one, create a pre-locked entry when none exists. -/
def noiseLockPass (now : Nat) : List String → List Vocab × Nat → List Vocab × Nat
  | [], acc => acc
  | lem :: rest, (vs, w) =>
    match vs.find? (fun v => v.lemma_ == lem && v.language == "en") with
    | some v =>
      if v.isTraced then noiseLockPass now rest (vs, w)
      else noiseLockPass now rest
        (vs.map (fun u => if u.vocabId == v.vocabId then lockUpdate now u else u), w + 1)
    | none => noiseLockPass now rest (vs ++ [mkNoiseVocab lem now], w + 1)

/-- `syncNoiseWordsFromSettings(force)`: memoized on the config key; when it
runs, unlock pass, lock pass, then store the config key.  The second
component counts the database writes performed. -/
def syncNoiseWordsFromSettings (cfg : NoiseCfg) (force : Bool) (now : Nat) (db : DB) :
    DB × Nat :=
  let key := noiseCfgKey cfg
  if ¬force ∧ db.noiseConfigHash = some key then (db, 0)
  else
    let unlocked := db.vocabulary.map (fun v => (noiseUnlockStep (noiseTarget cfg) now v).1)
    let w1 := (db.vocabulary.map (fun v => (noiseUnlockStep (noiseTarget cfg) now v).2)).sum
    let res := noiseLockPass now ((noiseTarget cfg).sort (· ≤ ·)) (unlocked, w1)
    ({ db with vocabulary := res.1, noiseConfigHash := some key }, res.2 + 1)

/-! ## Page-scan promotion (handleScanPageWords, promotion + wordbank passes)

The aggregation prefix of `handleScanPageWords` (tokenizing, the dictionary
gate, the lemmaStat upsert) is modelled by its outcome: `qualified` is the set
of normalized page tokens that passed the Layer-0 gate, and `db.lemmaStats`
holds the post-aggregation stats (`statsByLemma` contains exactly the stats
whose `normalizedLemma` is qualified). -/

structure ScanSettings where
  promotionMinCount : Nat := 6
  promotionMinPages : Nat := 3
  noiseWordbankId : String := "wb_primary"
  noiseManualAdd : Finset String := ∅
  noiseManualRemove : Finset String := ∅

/-- The eligibility test of the promotion pass:
`!s.promotedVocabId && totalCount >= min && pageCount >= min && no active
cooldown`. -/
def promotionCandidate (st : ScanSettings) (now : Nat) (s : LemmaStat) : Bool :=
  s.promotedVocabId.isNone && decide (st.promotionMinCount ≤ s.totalCount) &&
  decide (st.promotionMinPages ≤ s.pageCount) &&
  (match s.cooldownUntil with | none => true | some c => decide (c < now))

/-- `wordbankWords.get(normalized)` over the enabled-wordbank map, modelled as
an association list in map iteration order. -/
def wbLookup (wbws : List (String × WbWord)) (normalized : String) : Option WbWord :=
  (wbws.find? (fun p => p.1 == normalized)).map (·.2)

/-- The `shouldLockAsNoise` computation of the threshold-promotion path. -/
def shouldLockAsNoise (st : ScanSettings) (wbws : List (String × WbWord))
    (s : LemmaStat) : Bool :=
  if s.normalizedLemma ∈ st.noiseManualRemove then false
  else
    (st.noiseWordbankId ≠ "" && s.inWordbank &&
      (match wbLookup wbws s.normalizedLemma with
       | some w => w.sourceWordbankIds.contains st.noiseWordbankId
       | none => false))
    || decide (s.normalizedLemma ∈ st.noiseManualAdd)

def markPromoted (vocabId reason : String) (now : Nat) (s : LemmaStat) : LemmaStat :=
  { s with promotedVocabId := some vocabId, promotedAt := some now,
           promotionReason := some reason }

/-- The entry created for a threshold promotion with no existing vocabulary
match. -/
def mkPromotedVocab (st : ScanSettings) (wbws : List (String × WbWord))
    (s : LemmaStat) (now : Nat) : Vocab :=
  let shouldLock := shouldLockAsNoise st wbws s
  { vocabId := "promoted:" ++ s.normalizedLemma, lemma_ := s.lemma_,
    surface := (match wbLookup wbws s.normalizedLemma with
                | some w => w.surface
                | none => s.lemma_),
    language := s.language, scoreLocked := shouldLock, noiseManaged := shouldLock,
    familiarityScore := (if shouldLock then 100 else 0), isKnown := shouldLock,
    lastSeenAt := some now, createdAt := now, updatedAt := now }

def existingVocabFor (db : DB) (s : LemmaStat) : Option Vocab :=
  db.vocabulary.find? (fun v => v.lemma_ == s.lemma_ && v.language == s.language)

/-- The threshold-promotion pass: every qualified candidate stat is marked
promoted (towards the existing entry for its lemma+language, or towards a
fresh entry buffered in `pendingNewVocab` and bulk-added afterwards). -/
def scanPromotionPass (st : ScanSettings) (wbws : List (String × WbWord))
    (qualified : Finset String) (now : Nat) (db : DB) : DB :=
  let newStats := db.lemmaStats.map (fun s =>
    if s.normalizedLemma ∈ qualified ∧ promotionCandidate st now s = true then
      markPromoted
        (match existingVocabFor db s with
         | some v => v.vocabId
         | none => "promoted:" ++ s.normalizedLemma)
        "threshold" now s
    else s)
  let pending := db.lemmaStats.filterMap (fun s =>
    if (s.normalizedLemma ∈ qualified ∧ promotionCandidate st now s = true) ∧
       (existingVocabFor db s).isNone
    then some (mkPromotedVocab st wbws s now) else none)
  { db with lemmaStats := newStats, vocabulary := db.vocabulary ++ pending }

/-- `shouldLockAsNoise` of the wordbank-pending path (the wordbank word is at
hand, no `inWordbank` test). -/
def wbShouldLock (st : ScanSettings) (normalized : String) (w : WbWord) : Bool :=
  if normalized ∈ st.noiseManualRemove then false
  else (st.noiseWordbankId ≠ "" && w.sourceWordbankIds.contains st.noiseWordbankId)
       || decide (normalized ∈ st.noiseManualAdd)

def mkWordbankVocab (st : ScanSettings) (normalized : String) (w : WbWord)
    (now : Nat) : Vocab :=
  let shouldLock := wbShouldLock st normalized w
  { vocabId := "wbv:" ++ normalized, lemma_ := w.lemma_, surface := w.surface,
    language := "en", scoreLocked := shouldLock, noiseManaged := shouldLock,
    familiarityScore := (if shouldLock then 100 else 0), isKnown := shouldLock,
    lastSeenAt := some now, createdAt := now, updatedAt := now }

/-- Does `vocabByLemma` (built over the non-deleted, language-matching entries
after the threshold pass) contain `normalized`? -/
def vocabHasLemma (vocab1 : List Vocab) (lang : Option String) (normalized : String) : Bool :=
  vocab1.any (fun v => v.deletedAt.isNone &&
    (lang.isNone || lang == some v.language) && normalizeLemma v.lemma_ == normalized)

/-- The wordbank-pending pass: a qualified wordbank word with no vocabulary
entry yet gets a pending entry, and its stat (if not yet promoted) is marked
promoted with reason `wordbank` — without any count/page threshold. -/
def scanWordbankPass (st : ScanSettings) (lang : Option String) (qualified : Finset String)
    (now : Nat) (vocab1 : List Vocab) :
    List (String × WbWord) → List LemmaStat → List String → List Vocab →
    List LemmaStat × List Vocab
  | [], stats, _, pending => (stats, pending)
  | (normalized, w) :: rest, stats, added, pending =>
    if normalized ∈ qualified ∧
       ¬(vocabHasLemma vocab1 lang normalized = true ∨ normalized ∈ added) then
      let nv := mkWordbankVocab st normalized w now
      let stats2 := stats.map (fun s =>
        if s.normalizedLemma == normalized ∧ s.promotedVocabId.isNone then
          markPromoted nv.vocabId "wordbank" now s else s)
      scanWordbankPass st lang qualified now vocab1 rest stats2
        (normalized :: added) (pending ++ [nv])
    else scanWordbankPass st lang qualified now vocab1 rest stats added pending

/-- Both promotion passes of `handleScanPageWords`.  Returns the updated state
and the pending wordbank entries (persisted later, in the record branch). -/
def handleScanPromotion (st : ScanSettings) (wbws : List (String × WbWord))
    (lang : Option String) (qualified : Finset String) (now : Nat) (db : DB) :
    DB × List Vocab :=
  let db1 := scanPromotionPass st wbws qualified now db
  let res := scanWordbankPass st lang qualified now db1.vocabulary wbws db1.lemmaStats [] []
  ({ db1 with lemmaStats := res.1 }, res.2)

/-! ## Auto-trace pool replenishment (tail of handleScanPageWords) -/

/-- `/^[a-z]{2,}$/`. -/
def validWord (s : String) : Bool :=
  2 ≤ s.length && s.toList.all (fun c => 'a' ≤ c && c ≤ 'z')

structure AutoTraceCfg where
  poolSize : Nat := 30
  minEncounters : Nat := 3

/-- Entries with `isTraced && !isKnown && !deletedAt`. -/
def activeTracedCount (db : DB) : Nat :=
  (db.vocabulary.filter (fun v => v.isTraced && !v.isKnown && v.deletedAt.isNone)).length

/-- `Math.max(0.1, 1 - daysSinceLastEncounter / 30)`. -/
def recencyFactor (now lastSeen : Nat) : ℚ :=
  jsMax (1/10) (1 - ((now : ℚ) - (lastSeen : ℚ)) / (24*60*60*1000) / 30)

structure TraceCand where
  vocab : Vocab
  score : ℚ

def candGe (a b : TraceCand) : Prop := b.score ≤ a.score

instance : DecidableRel candGe := fun a b => inferInstanceAs (Decidable (b.score ≤ a.score))

/-- The auto-trace replenishment step: `slots = poolSize - activeTracedCount`;
when positive, rank the eligible candidates by `encounterCount * recency` and
flip `isTraced` on the top `slots` of them.  JS `Array.prototype.sort` is
stable; a stable descending sort is modelled by `insertionSort` on `≥`.
Returns the state and the number of entries flipped. -/
def replenishAutoTrace (cfg : AutoTraceCfg) (env : Env) (wordbankSet : Finset String)
    (now : Nat) (db : DB) : DB × Nat :=
  let currentTraced := activeTracedCount db
  let slots : Int := (cfg.poolSize : Int) - (currentTraced : Int)
  if slots ≤ 0 then (db, 0)
  else
    let candidates := db.vocabulary.filter (fun v =>
      !v.isTraced && !v.isKnown && !v.scoreLocked && v.deletedAt.isNone && validWord v.lemma_)
    let eligible := candidates.filter (fun v =>
      let cnt := (encountersOf v.vocabId db).length
      decide (0 < cnt) && decide (cfg.minEncounters ≤ cnt) &&
      (decide (v.lemma_ ∈ wordbankSet) || (env.dictRank v.lemma_).isSome))
    let scored := eligible.map (fun v =>
      let cnt := (encountersOf v.vocabId db).length
      let lastSeen := ((encountersOf v.vocabId db).map (·.createdAt)).foldl Nat.max 0
      (⟨v, (cnt : ℚ) * recencyFactor now lastSeen⟩ : TraceCand))
    let chosen := (scored.insertionSort candGe).take slots.toNat
    (chosen.foldl (fun acc c => updateVocab c.vocab.vocabId (flipTraced now) acc) db,
     chosen.length)

/-! ## Card draw (handleDrawCard, pickTopN, weightedSampleWithoutReplacement) -/

structure ScoredEntry where
  vocab : Vocab
  score : ℚ
  priority : ℚ

/-- `!v.deletedAt && !v.scoreLocked && !v.isKnown`. -/
def drawCandidates (db : DB) : List Vocab :=
  db.vocabulary.filter (fun v => v.deletedAt.isNone && !v.scoreLocked && !v.isKnown)

/-- The real-time weighted score `handleDrawCard` computes per candidate. -/
def drawScore (db : DB) (v : Vocab) : ℚ :=
  calculateWeightedScore ((encountersOf v.vocabId db).map (·.source)) (multiplierOf v.isTraced)

/-- The filter applied on top of the candidates: not excluded, and real-time
score below the known threshold. -/
def drawEligible (excl : Finset String) (db : DB) : List Vocab :=
  (drawCandidates db).filter (fun v =>
    !(decide (v.vocabId ∈ excl)) && decide (drawScore db v < KNOWN_THRESHOLD))

/-- The composite review priority
`0.45*srsDue + 0.25*difficulty + 0.20*urgency + 0.10*recency`. -/
def priorityOf (now : Nat) (v : Vocab) (score : ℚ) : ℚ :=
  let lastSeen := v.lastSeenAt.getD v.createdAt
  let daysSinceLastSeen : ℚ := ((now : ℚ) - (lastSeen : ℚ)) / (24*60*60*1000)
  let srsDue : ℚ :=
    if 0 < v.nextReviewDate ∧ v.nextReviewDate < now then
      jsMin 1 (((now : ℚ) - (v.nextReviewDate : ℚ)) / (7*24*60*60*1000))
    else if v.nextReviewDate = 0 then 1/2 else 0
  let difficulty : ℚ := 1 - score / KNOWN_THRESHOLD
  let urgency : ℚ := if v.isTraced then 1 else 3/10
  let recency : ℚ := jsMin 1 (daysSinceLastSeen / 14)
  srsDue * (45/100) + difficulty * (25/100) + urgency * (20/100) + recency * (10/100)

def drawScored (excl : Finset String) (now : Nat) (db : DB) : List ScoredEntry :=
  (drawEligible excl db).map (fun v => ⟨v, drawScore db v, priorityOf now v (drawScore db v)⟩)

def prioGe (a b : ScoredEntry) : Prop := b.priority ≤ a.priority

instance : DecidableRel prioGe := fun a b => inferInstanceAs (Decidable (b.priority ≤ a.priority))

/-- `pickTopN`: stable sort descending by priority (JS `sort` is stable),
take the first `n`. -/
def pickTopN (items : List ScoredEntry) (n : Nat) : List ScoredEntry :=
  (items.insertionSort prioGe).take n

def keyGe (a b : ScoredEntry × ℚ) : Prop := b.2 ≤ a.2

instance : DecidableRel keyGe := fun a b => inferInstanceAs (Decidable (b.2 ≤ a.2))

/-- Efraimidis–Spirakis sampling: each item gets the key
`pow(u_i, 1 / max(0.001, priority))` for the i-th random draw `u_i`; sort
descending by key, take `n`.  The irrational `Math.pow` is abstracted by the
function `keyOf i q`, applied to the clamped exponent base `q`; no counted
property depends on its values. -/
def weightedSampleWithoutReplacement (items : List ScoredEntry) (n : Nat)
    (keyOf : Nat → ℚ → ℚ) : List ScoredEntry :=
  let keyed := items.enum.map (fun p => (p.2, keyOf p.1 (jsMax (1/1000) p.2.priority)))
  ((keyed.insertionSort keyGe).take n).map (·.1)

/-- `handleDrawCard` up to the returned card list (the context-sentence
enrichment is display-only): `auto = true` models mode `'auto'`, otherwise
the default `'shuffle'`. -/
def handleDrawCard (n : Nat) (auto : Bool) (excl : Finset String)
    (keyOf : Nat → ℚ → ℚ) (now : Nat) (db : DB) : List ScoredEntry :=
  let candidates := drawCandidates db
  if candidates.isEmpty then []
  else
    let eligible := drawEligible excl db
    if eligible.isEmpty then []
    else
      let scored := drawScored excl now db
      if auto then pickTopN scored n else weightedSampleWithoutReplacement scored n keyOf

/-! ## The mutating operations as a command type, and the engine invariants -/

inductive Op where
  | recordEncounter (env : Env) (p : RecordEncounterPayload)
      (newVocabId newEncounterId : String) (now : Nat)
  | rateWord (vocabId rating newEncounterId : String) (now : Nat)
  | toggleTrace (vocabId : String) (traced : Bool) (now : Nat)
  | deleteEncounter (encounterId : String) (now : Nat)
  | unlockNoiseWord (vocabId : String) (now : Nat)
  | syncNoise (cfg : NoiseCfg) (force : Bool) (now : Nat)
  | promote (st : ScanSettings) (wbws : List (String × WbWord)) (lang : Option String)
      (qualified : Finset String) (record : Bool) (now : Nat)
  | replenish (cfg : AutoTraceCfg) (env : Env) (wordbankSet : Finset String) (now : Nat)

/-- The state after each mutating operation (for `promote` with
`record = true`, the pending wordbank entries are persisted as the record
branch of the scan does). -/
def applyOp : Op → DB → DB
  | .recordEncounter env p nv ne now, db => (handleRecordEncounter env p nv ne now db).1
  | .rateWord v r ne now, db => (handleRateWord v r ne now db).1
  | .toggleTrace v t now, db => (handleToggleTraceWord v t now db).1
  | .deleteEncounter e now, db => (handleDeleteEncounter e now db).1
  | .unlockNoiseWord v now, db => (handleUnlockNoiseWord v now db).1
  | .syncNoise cfg f now, db => (syncNoiseWordsFromSettings cfg f now db).1
  | .promote st wbws lang q record now, db =>
      let r := handleScanPromotion st wbws lang q now db
      if record then { r.1 with vocabulary := r.1.vocabulary ++ r.2 } else r.1
  | .replenish cfg env wb now, db => (replenishAutoTrace cfg env wb now db).1

/-- Whether the operation is the trace toggle (the one operation that breaks
the lock/trace exclusion). -/
def Op.togglesTrace : Op → Bool
  | .toggleTrace _ _ _ => true
  | _ => false

/-- The stored `isKnown` flag agrees with `familiarityScore >= 100`. -/
def ScoreConsistent (v : Vocab) : Prop :=
  v.isKnown = decide (KNOWN_THRESHOLD ≤ v.familiarityScore)

def ScoreInvariant (db : DB) : Prop := ∀ v ∈ db.vocabulary, ScoreConsistent v

/-- No entry is simultaneously score-locked and traced. -/
def NotLockedTraced (v : Vocab) : Prop := ¬(v.scoreLocked = true ∧ v.isTraced = true)

def TraceExclusion (db : DB) : Prop := ∀ v ∈ db.vocabulary, NotLockedTraced v

instance (v : Vocab) : Decidable (ScoreConsistent v) := by
  unfold ScoreConsistent; infer_instance

instance (v : Vocab) : Decidable (NotLockedTraced v) := by
  unfold NotLockedTraced; infer_instance

instance (db : DB) : Decidable (ScoreInvariant db) := by
  unfold ScoreInvariant; infer_instance

instance (db : DB) : Decidable (TraceExclusion db) := by
  unfold TraceExclusion; infer_instance

/-! ## C7: memoized noise sync -/

lemma syncNoise_hash (cfg : NoiseCfg) (force : Bool) (now : Nat) (db : DB) :
    (syncNoiseWordsFromSettings cfg force now db).1.noiseConfigHash
      = some (noiseCfgKey cfg) := by
  unfold syncNoiseWordsFromSettings
  by_cases h : (¬force = true ∧ db.noiseConfigHash = some (noiseCfgKey cfg))
  · rw [if_pos h]; exact h.2
  · rw [if_neg h]

lemma syncNoise_memoized (cfg : NoiseCfg) (now : Nat) (db : DB)
    (h : db.noiseConfigHash = some (noiseCfgKey cfg)) :
    syncNoiseWordsFromSettings cfg false now db = (db, 0) := by
  unfold syncNoiseWordsFromSettings
  rw [if_pos ⟨by simp, h⟩]

/-- C7: after any completed `syncNoiseWords` run, a second non-forced run with
the same noise configuration (same noise wordbank id, same manual add list,
same manual remove list) performs zero database writes — it does not even
touch the state. -/
theorem syncNoiseWords_second_call_zero_writes (cfg : NoiseCfg) (force : Bool)
    (now1 now2 : Nat) (db : DB) :
    syncNoiseWordsFromSettings cfg false now2
        (syncNoiseWordsFromSettings cfg force now1 db).1
      = ((syncNoiseWordsFromSettings cfg force now1 db).1, 0) :=
  syncNoise_memoized cfg now2 _ (syncNoise_hash cfg force now1 db)

/-! ## C9: rating a score-locked word is rejected without touching state -/

/-- C9: when the vocabulary entry exists and is score-locked, `handleRateWord`
throws the synchronous `VALIDATION_ERROR` before inserting anything: the
returned state is the input state, unchanged. -/
theorem rateWord_scoreLocked_rejected (vocabId rating newEncounterId : String)
    (now : Nat) (db : DB) (v : Vocab)
    (hne : vocabId ≠ "")
    (hv : findVocab vocabId db = some v)
    (hlock : v.scoreLocked = true) :
    handleRateWord vocabId rating newEncounterId now db
      = (db, .error (.validation "cannot rate a score-locked word")) := by
  unfold handleRateWord
  rw [if_neg hne, hv]
  simp [hlock]

/-- A locked noise word, used by concrete instances below. -/
def lockedVocab : Vocab :=
  { vocabId := "v1", lemma_ := "the", familiarityScore := 100, isKnown := true,
    scoreLocked := true, noiseManaged := true }

def lockedDB : DB := { vocabulary := [lockedVocab] }

/-- C9 witness. -/
theorem rateWord_scoreLocked_rejected_witness :
    handleRateWord "v1" "known" "e9" 5 lockedDB
      = (lockedDB, .error (.validation "cannot rate a score-locked word")) :=
  rateWord_scoreLocked_rejected "v1" "known" "e9" 5 lockedDB lockedVocab
    (by decide) (by rfl) (by rfl)

/-! ## C10: second lookup encounter auto-unlocks a noise word -/

lemma recalcVocabScore_of_locked (vid : String) (now : Nat) (db : DB) (v : Vocab)
    (hv : findVocab vid db = some v) (hlock : v.scoreLocked = true) :
    recalcVocabScore vid now db = db := by
  unfold recalcVocabScore
  rw [hv]
  simp [hlock]

lemma insertEncounterAndRecalc_unlocks (vid : String) (enc : Encounter) (now : Nat)
    (db1 : DB) (v : Vocab)
    (hv : findVocab vid db1 = some v)
    (hlock : v.scoreLocked = true)
    (hes : enc.source = "lookup")
    (hev : enc.vocabId = vid)
    (hprev : 1 ≤ ((encountersOf vid db1).filter (fun e => e.source == "lookup")).length) :
    ∀ w ∈ (insertEncounterAndRecalc vid enc now db1).vocabulary,
      w.vocabId = vid →
      w.scoreLocked = false ∧ w.familiarityScore = 0 ∧ w.isKnown = false ∧
        w.noiseManaged = false := by
  have hv2 : findVocab vid ({ db1 with encounters := db1.encounters ++ [enc] } : DB)
      = some v := hv
  have hcount : 2 ≤ ((encountersOf vid
      ({ db1 with encounters := db1.encounters ++ [enc] } : DB)).filter
        (fun e => e.source == "lookup")).length := by
    unfold encountersOf at hprev ⊢
    simp only [List.filter_append, List.length_append]
    have : (List.filter (fun e => e.source == "lookup")
        (List.filter (fun e => e.vocabId == vid) [enc])).length = 1 := by
      simp [hes, hev]
    omega
  unfold insertEncounterAndRecalc
  dsimp only
  rw [recalcVocabScore_of_locked vid now _ v hv2 hlock]
  rw [if_pos (by simp [hes]), hv2]
  dsimp only
  rw [if_pos hlock, if_pos hcount]
  intro w hw hwid
  unfold resetNoiseWordFields updateVocab at hw
  simp only [List.mem_map] at hw
  obtain ⟨u, hu, rfl⟩ := hw
  by_cases hid : u.vocabId == vid
  · simp [hid]
  · rw [if_neg hid] at hwid ⊢
    exact absurd (by simp [hwid]) hid

/-- C10: when `recordEncounter` actually inserts (no 24-hour dedup hit) a
`lookup` encounter for an existing, non-deleted, score-locked entry that
already had at least one lookup encounter — so the entry now has at least two
in total — the entry is unlocked in the same operation:
`scoreLocked=false, familiarityScore=0, isKnown=false, noiseManaged=false`. -/
theorem recordEncounter_second_lookup_unlocks (env : Env) (p : RecordEncounterPayload)
    (newVocabId newEncounterId : String) (now : Nat) (db : DB)
    (vid host : String) (v : Vocab)
    (hurl : ¬strBlank p.pageUrl = true)
    (hvid : p.vocabId = some vid)
    (hsrc : p.source = some "lookup")
    (hv : findVocab vid db = some v)
    (hdel : v.deletedAt = none)
    (hlock : v.scoreLocked = true)
    (hhost : env.urlHost p.pageUrl = some host)
    (hnodedup : dedupLookup p vid now db = none)
    (hprev : 1 ≤ ((encountersOf vid db).filter (fun e => e.source == "lookup")).length) :
    ∀ w ∈ ((handleRecordEncounter env p newVocabId newEncounterId now db).1).vocabulary,
      w.vocabId = vid →
      w.scoreLocked = false ∧ w.familiarityScore = 0 ∧ w.isKnown = false ∧
        w.noiseManaged = false := by
  have hmain : (handleRecordEncounter env p newVocabId newEncounterId now db).1
      = insertEncounterAndRecalc vid
          { encounterId := newEncounterId, vocabId := vid,
            surface := jsOrStr p.word (if v.surface ≠ "" then v.surface else v.lemma_),
            normalizedSurface := normalizeLemma
              (jsOrStr p.word (if v.surface ≠ "" then v.surface else v.lemma_)),
            pageUrl := p.pageUrl, contextSentence := p.contextSentence,
            source := jsOrStr p.source "scan", createdAt := now, updatedAt := now }
          now db := by
    unfold handleRecordEncounter recordWithVocab
    rw [if_neg hurl, hvid]
    simp only [hv, hdel, Option.isSome_none, Bool.false_eq_true, if_false, hhost, hnodedup]
  rw [hmain]
  exact insertEncounterAndRecalc_unlocks vid _ now db v hv hlock
    (by rw [hsrc]; rfl) (by rfl) hprev

def c10env : Env := { urlHost := fun _ => some "x.test" }

def c10payload : RecordEncounterPayload :=
  { vocabId := some "v1", pageUrl := "https://x.test/a", source := some "lookup" }

def c10db : DB :=
  { vocabulary := [lockedVocab],
    encounters := [{ encounterId := "e1", vocabId := "v1", source := "lookup",
                     pageUrl := "https://y.test/b", createdAt := 0 }] }

def c10unlocked : Vocab :=
  { vocabId := "v1", lemma_ := "the", familiarityScore := 0, isKnown := false,
    scoreLocked := false, noiseManaged := false, updatedAt := 200000000 }

/-- C10 witness: a second lookup encounter on the locked entry of `c10db`
leaves it fully unlocked. -/
theorem recordEncounter_second_lookup_unlocks_witness :
    c10unlocked.scoreLocked = false ∧ c10unlocked.familiarityScore = 0 ∧
      c10unlocked.isKnown = false ∧ c10unlocked.noiseManaged = false :=
  recordEncounter_second_lookup_unlocks c10env c10payload "nv" "e2" 200000000 c10db
    "v1" "x.test" lockedVocab (by decide) rfl rfl rfl rfl rfl rfl (by decide) (by decide)
    c10unlocked (by decide) rfl

/-! ## Invariant plumbing -/

lemma updateVocab_ids (vid : String) (f : Vocab → Vocab) (db : DB)
    (hf : ∀ v, (f v).vocabId = v.vocabId) :
    (updateVocab vid f db).vocabulary.map (·.vocabId) = db.vocabulary.map (·.vocabId) := by
  unfold updateVocab
  simp only [List.map_map]
  apply List.map_congr_left
  intro v _
  simp only [Function.comp]
  by_cases h : v.vocabId == vid
  · rw [if_pos h]; exact hf v
  · rw [if_neg h]

lemma mem_updateVocab {w : Vocab} {vid : String} {f : Vocab → Vocab} {db : DB}
    (hw : w ∈ (updateVocab vid f db).vocabulary) :
    ∃ u ∈ db.vocabulary, w = if u.vocabId == vid then f u else u := by
  unfold updateVocab at hw
  simp only [List.mem_map] at hw
  obtain ⟨u, hu, rfl⟩ := hw
  exact ⟨u, hu, rfl⟩

lemma scoreInvariant_updateVocab {db : DB} (vid : String) (f : Vocab → Vocab)
    (h : ScoreInvariant db) (hf : ∀ u ∈ db.vocabulary, ScoreConsistent u → ScoreConsistent (f u)) :
    ScoreInvariant (updateVocab vid f db) := by
  intro w hw
  obtain ⟨u, hu, rfl⟩ := mem_updateVocab hw
  by_cases hid : u.vocabId == vid
  · rw [if_pos hid]; exact hf u hu (h u hu)
  · rw [if_neg hid]; exact h u hu

lemma scoreConsistent_setScore (u : Vocab) (score : ℚ) (upd : Nat) :
    ScoreConsistent { u with familiarityScore := score,
                             isKnown := decide (KNOWN_THRESHOLD ≤ score), updatedAt := upd } := rfl

lemma scoreConsistent_reset (u : Vocab) (upd : Nat) :
    ScoreConsistent { u with scoreLocked := false, familiarityScore := 0, isKnown := false,
                             noiseManaged := false, updatedAt := upd } := by
  unfold ScoreConsistent KNOWN_THRESHOLD
  norm_num

lemma scoreInvariant_recalc (vid : String) (now : Nat) (db : DB)
    (h : ScoreInvariant db) : ScoreInvariant (recalcVocabScore vid now db) := by
  unfold recalcVocabScore
  cases findVocab vid db with
  | none => exact h
  | some v =>
    dsimp only
    split
    · exact h
    · apply scoreInvariant_updateVocab _ _ h
      intro u _ _
      exact scoreConsistent_setScore u _ _

lemma scoreInvariant_reset (vid : String) (now : Nat) (db : DB)
    (h : ScoreInvariant db) : ScoreInvariant (resetNoiseWordFields vid now db) :=
  scoreInvariant_updateVocab vid _ h (fun u _ _ => scoreConsistent_reset u _)

lemma scoreInvariant_encounters (db : DB) (encs : List Encounter)
    (h : ScoreInvariant db) : ScoreInvariant { db with encounters := encs } := h

lemma scoreInvariant_append {db : DB} (vs : List Vocab)
    (h : ScoreInvariant db) (hvs : ∀ v ∈ vs, ScoreConsistent v) :
    ScoreInvariant { db with vocabulary := db.vocabulary ++ vs } := by
  intro w hw
  rcases List.mem_append.mp hw with h1 | h2
  · exact h w h1
  · exact hvs w h2

lemma scoreConsistent_newVocab (vid lem surf lang : String) (now : Nat) :
    ScoreConsistent ({ vocabId := vid, lemma_ := lem, surface := surf, language := lang, createdAt := now, updatedAt := now } : Vocab) := by
  unfold ScoreConsistent KNOWN_THRESHOLD
  norm_num

lemma scoreInvariant_rateWord (vocabId rating ne : String) (now : Nat) (db : DB)
    (h : ScoreInvariant db) : ScoreInvariant (handleRateWord vocabId rating ne now db).1 := by
  unfold handleRateWord
  split
  · exact h
  · cases findVocab vocabId db with
    | none => exact h
    | some vocab =>
      dsimp only
      split
      · exact h
      · apply scoreInvariant_updateVocab _ _ h
        intro u _ _
        exact scoreConsistent_setScore u _ _

lemma scoreInvariant_toggleTrace (vocabId : String) (traced : Bool) (now : Nat) (db : DB)
    (h : ScoreInvariant db) :
    ScoreInvariant (handleToggleTraceWord vocabId traced now db).1 := by
  unfold handleToggleTraceWord
  split
  · exact h
  · cases findVocab vocabId db with
    | none => exact h
    | some vocab =>
      dsimp only
      split
      · exact h
      · intro w hw
        obtain ⟨u, hu, rfl⟩ := mem_updateVocab hw
        by_cases hid : u.vocabId == vocabId
        · rw [if_pos hid]; exact rfl
        · rw [if_neg hid]; exact h u hu

lemma scoreInvariant_unlockNoise (vocabId : String) (now : Nat) (db : DB)
    (h : ScoreInvariant db) :
    ScoreInvariant (handleUnlockNoiseWord vocabId now db).1 := by
  unfold handleUnlockNoiseWord
  split
  · exact h
  · cases findVocab vocabId db with
    | none => exact h
    | some vocab =>
      dsimp only
      split
      · exact h
      · exact scoreInvariant_reset _ _ _ h

lemma scoreInvariant_insertEnc (vid : String) (enc : Encounter) (now : Nat) (db1 : DB)
    (h : ScoreInvariant db1) : ScoreInvariant (insertEncounterAndRecalc vid enc now db1) := by
  unfold insertEncounterAndRecalc
  dsimp only
  have h3 : ScoreInvariant (recalcVocabScore vid now
      { db1 with encounters := db1.encounters ++ [enc] }) :=
    scoreInvariant_recalc _ _ _ h
  split
  · cases findVocab vid (recalcVocabScore vid now
        { db1 with encounters := db1.encounters ++ [enc] }) with
    | none => exact h3
    | some v =>
      dsimp only
      split
      · split
        · exact scoreInvariant_reset _ _ _ h3
        · exact h3
      · exact h3
  · exact h3

lemma scoreInvariant_upsert (lr sa lang nid : String) (now : Nat) (db : DB)
    (h : ScoreInvariant db) : ScoreInvariant (upsertVocabBasic lr sa lang nid now db).1 := by
  unfold upsertVocabBasic
  split
  · exact h
  · dsimp only
    cases hf : db.vocabulary.find?
        (fun v => v.lemma_ == normalizeLemma lr && v.language == lang) with
    | some found =>
      dsimp only
      intro w hw
      simp only [List.mem_map] at hw
      obtain ⟨u, hu, rfl⟩ := hw
      by_cases hid : u.vocabId == found.vocabId
      · rw [if_pos hid]
        exact h found (List.mem_of_find?_eq_some hf)
      · rw [if_neg hid]; exact h u hu
    | none =>
      dsimp only
      apply scoreInvariant_append _ h
      intro v hv
      rw [List.mem_singleton.mp hv]
      exact scoreConsistent_newVocab nid (normalizeLemma lr) (if sa ≠ "" then sa else lr)
        lang now

lemma scoreInvariant_recordWithVocab (env : Env) (p : RecordEncounterPayload)
    (ne : String) (now : Nat) (vid surface : String) (db1 : DB)
    (h : ScoreInvariant db1) :
    ScoreInvariant (recordWithVocab env p ne now vid surface db1).1 := by
  unfold recordWithVocab
  cases env.urlHost p.pageUrl with
  | none => exact h
  | some _ =>
    dsimp only
    cases dedupLookup p vid now db1 with
    | some recent => exact h
    | none => exact scoreInvariant_insertEnc _ _ _ _ h

lemma scoreInvariant_recordEncounter (env : Env) (p : RecordEncounterPayload)
    (nv ne : String) (now : Nat) (db : DB) (h : ScoreInvariant db) :
    ScoreInvariant (handleRecordEncounter env p nv ne now db).1 := by
  unfold handleRecordEncounter
  split
  · exact h
  · cases p.vocabId with
    | none =>
      dsimp only
      cases p.word with
      | none => exact h
      | some w =>
        dsimp only
        split
        · exact h
        · have hup : ScoreInvariant (upsertVocabBasic (normalizeLemma w) w
              (jsOrStr p.language "en") nv now db).1 := scoreInvariant_upsert _ _ _ _ _ _ h
          cases upsertVocabBasic (normalizeLemma w) w (jsOrStr p.language "en") nv now db |>.2 with
          | error e => exact hup
          | ok v => exact scoreInvariant_recordWithVocab env p ne now _ _ _ hup
    | some vid =>
      dsimp only
      cases findVocab vid db with
      | none => exact h
      | some v =>
        dsimp only
        split
        · exact h
        · exact scoreInvariant_recordWithVocab env p ne now _ _ _ h

lemma scoreInvariant_ite (c : Prop) [Decidable c] {a b : DB}
    (ha : ScoreInvariant a) (hb : ScoreInvariant b) :
    ScoreInvariant (if c then a else b) := by
  split
  · exact ha
  · exact hb

lemma scoreInvariant_cleanup (vid : String) (db : DB) (h : ScoreInvariant db) :
    ScoreInvariant (cleanupOrphanedVocab vid db).1 := by
  unfold cleanupOrphanedVocab
  split
  · intro w hw
    exact h w (List.mem_of_mem_filter hw)
  · exact h

lemma scoreInvariant_deleteEnc (eid : String) (now : Nat) (db : DB)
    (h : ScoreInvariant db) : ScoreInvariant (handleDeleteEncounter eid now db).1 := by
  unfold handleDeleteEncounter
  split
  · exact h
  · cases db.encounters.find? (fun e => e.encounterId == eid) with
    | none => exact h
    | some enc =>
      dsimp only
      have hclean : ScoreInvariant (cleanupOrphanedVocab enc.vocabId
          { db with encounters := db.encounters.filter (fun e => e.encounterId != eid) }).1 :=
        scoreInvariant_cleanup _ _ h
      split
      · exact hclean
      · apply scoreInvariant_recalc
        apply scoreInvariant_ite
        · apply scoreInvariant_ite
          · exact hclean
          · apply scoreInvariant_updateVocab _ _ hclean
            intro u _ hc
            exact hc
        · exact hclean

lemma scoreConsistent_lock (u : Vocab) (upd : Nat) :
    ScoreConsistent (lockUpdate upd u) := by
  unfold ScoreConsistent lockUpdate KNOWN_THRESHOLD
  norm_num

lemma scoreConsistent_mkNoise (lem : String) (now : Nat) :
    ScoreConsistent (mkNoiseVocab lem now) := by
  unfold ScoreConsistent mkNoiseVocab KNOWN_THRESHOLD
  norm_num

lemma noiseLockPass_scoreInvariant (now : Nat) :
    ∀ (lems : List String) (vs : List Vocab) (w : Nat),
      (∀ v ∈ vs, ScoreConsistent v) →
      ∀ v ∈ (noiseLockPass now lems (vs, w)).1, ScoreConsistent v
  | [], _, _, h => h
  | lem :: rest, vs, w, h => by
    unfold noiseLockPass
    cases vs.find? (fun v => v.lemma_ == lem && v.language == "en") with
    | none =>
      apply noiseLockPass_scoreInvariant now rest _ _
      intro v hv
      rcases List.mem_append.mp hv with h1 | h2
      · exact h v h1
      · rw [List.mem_singleton.mp h2]; exact scoreConsistent_mkNoise lem now
    | some v =>
      dsimp only
      split
      · exact noiseLockPass_scoreInvariant now rest _ _ h
      · apply noiseLockPass_scoreInvariant now rest _ _
        intro u hu
        simp only [List.mem_map] at hu
        obtain ⟨u0, hu0, rfl⟩ := hu
        by_cases hid : u0.vocabId == v.vocabId
        · rw [if_pos hid]; exact scoreConsistent_lock u0 now
        · rw [if_neg hid]; exact h u0 hu0

lemma scoreInvariant_syncNoise (cfg : NoiseCfg) (force : Bool) (now : Nat) (db : DB)
    (h : ScoreInvariant db)
    (hsync : ∀ v ∈ db.vocabulary, v.scoreLocked = true → v.noiseManaged = true →
      v.isTraced = true → v.familiarityScore < KNOWN_THRESHOLD) :
    ScoreInvariant (syncNoiseWordsFromSettings cfg force now db).1 := by
  unfold syncNoiseWordsFromSettings
  dsimp only
  split
  · exact h
  · dsimp only
    intro w hw
    refine noiseLockPass_scoreInvariant now _ _ _ ?_ w hw
    intro v hv
    simp only [List.mem_map] at hv
    obtain ⟨u, hu, rfl⟩ := hv
    unfold noiseUnlockStep
    split
    · rename_i hcond
      unfold ScoreConsistent
      dsimp only
      by_cases htr : u.isTraced = true
      · rw [if_pos htr]
        exact (decide_eq_false (not_le.mpr (hsync u hu hcond.1 hcond.2.1 htr))).symm
      · rw [if_neg htr]
        norm_num [KNOWN_THRESHOLD]
    · exact h u hu

lemma scoreConsistent_mkPromoted (st : ScanSettings) (wbws : List (String × WbWord))
    (s : LemmaStat) (now : Nat) : ScoreConsistent (mkPromotedVocab st wbws s now) := by
  unfold ScoreConsistent mkPromotedVocab
  dsimp only
  cases shouldLockAsNoise st wbws s <;> norm_num [KNOWN_THRESHOLD]

lemma scoreConsistent_mkWordbank (st : ScanSettings) (normalized : String) (w : WbWord)
    (now : Nat) : ScoreConsistent (mkWordbankVocab st normalized w now) := by
  unfold ScoreConsistent mkWordbankVocab
  dsimp only
  cases wbShouldLock st normalized w <;> norm_num [KNOWN_THRESHOLD]

lemma scanWordbankPass_pending (st : ScanSettings) (lang : Option String)
    (qualified : Finset String) (now : Nat) (vocab1 : List Vocab) :
    ∀ (wbws : List (String × WbWord)) (stats : List LemmaStat) (added : List String)
      (pending : List Vocab),
      (∀ v ∈ pending, ScoreConsistent v) →
      ∀ v ∈ (scanWordbankPass st lang qualified now vocab1 wbws stats added pending).2,
        ScoreConsistent v
  | [], _, _, _, h => h
  | (normalized, wbw) :: rest, stats, added, pending, h => by
    unfold scanWordbankPass
    split
    · apply scanWordbankPass_pending st lang qualified now vocab1 rest _ _ _
      intro v hv
      rcases List.mem_append.mp hv with h1 | h2
      · exact h v h1
      · rw [List.mem_singleton.mp h2]; exact scoreConsistent_mkWordbank _ _ _ _
    · exact scanWordbankPass_pending st lang qualified now vocab1 rest _ _ _ h

lemma scoreInvariant_scanPromotionPass (st : ScanSettings) (wbws : List (String × WbWord))
    (qualified : Finset String) (now : Nat) (db : DB) (h : ScoreInvariant db) :
    ScoreInvariant (scanPromotionPass st wbws qualified now db) := by
  unfold scanPromotionPass
  apply scoreInvariant_append _ h
  intro v hv
  simp only [List.mem_filterMap] at hv
  obtain ⟨s, _, hs⟩ := hv
  split at hs
  · exact (Option.some.inj hs) ▸ scoreConsistent_mkPromoted st wbws s now
  · exact absurd hs (by simp)

lemma scoreInvariant_promote (st : ScanSettings) (wbws : List (String × WbWord))
    (lang : Option String) (qualified : Finset String) (record : Bool) (now : Nat)
    (db : DB) (h : ScoreInvariant db) :
    ScoreInvariant (applyOp (.promote st wbws lang qualified record now) db) := by
  unfold applyOp handleScanPromotion
  dsimp only
  have h1 : ScoreInvariant (scanPromotionPass st wbws qualified now db) :=
    scoreInvariant_scanPromotionPass st wbws qualified now db h
  split
  · apply scoreInvariant_append
    · exact fun v hv => h1 v hv
    · exact scanWordbankPass_pending st lang qualified now _ wbws _ [] [] (by simp)
  · exact fun v hv => h1 v hv

lemma scoreInvariant_flipFold (now : Nat) :
    ∀ (cs : List TraceCand) (db : DB), ScoreInvariant db →
      ScoreInvariant (cs.foldl (fun acc c =>
        updateVocab c.vocab.vocabId (flipTraced now) acc) db)
  | [], _, h => h
  | c :: rest, db, h => by
    rw [List.foldl_cons]
    apply scoreInvariant_flipFold now rest
    apply scoreInvariant_updateVocab _ _ h
    intro u _ hc
    exact hc

lemma scoreInvariant_replenish (cfg : AutoTraceCfg) (env : Env) (wbSet : Finset String)
    (now : Nat) (db : DB) (h : ScoreInvariant db) :
    ScoreInvariant (replenishAutoTrace cfg env wbSet now db).1 := by
  unfold replenishAutoTrace
  dsimp only
  split
  · exact h
  · dsimp only
    exact scoreInvariant_flipFold now _ db h

/-- C2 as stated is false (see `syncNoise_breaks_score_invariant`); amended:
every mutating operation — recordEncounter, rateWord, toggleTrace, encounter
deletion with recompute, noise locking/unlocking (manual unlock and the sync
passes), promotion, and auto-trace replenishment — preserves the invariant
`isKnown == (familiarityScore >= 100)` for every entry, except that for
`syncNoiseWords` this additionally requires every locked, noise-managed,
traced entry to carry a score below 100: unlocking such an entry keeps its
stored score while forcing `isKnown := false`. -/
theorem score_invariant_preserved (op : Op) (db : DB)
    (hinv : ScoreInvariant db)
    (hsync : ∀ cfg force now, op = Op.syncNoise cfg force now →
      ∀ v ∈ db.vocabulary, v.scoreLocked = true → v.noiseManaged = true →
        v.isTraced = true → v.familiarityScore < KNOWN_THRESHOLD) :
    ScoreInvariant (applyOp op db) := by
  cases op with
  | recordEncounter env p nv ne now => exact scoreInvariant_recordEncounter env p nv ne now db hinv
  | rateWord v r ne now => exact scoreInvariant_rateWord v r ne now db hinv
  | toggleTrace v t now => exact scoreInvariant_toggleTrace v t now db hinv
  | deleteEncounter e now => exact scoreInvariant_deleteEnc e now db hinv
  | unlockNoiseWord v now => exact scoreInvariant_unlockNoise v now db hinv
  | syncNoise cfg f now =>
    exact scoreInvariant_syncNoise cfg f now db hinv (hsync cfg f now rfl)
  | promote st wbws lang q record now =>
    exact scoreInvariant_promote st wbws lang q record now db hinv
  | replenish cfg env wb now => exact scoreInvariant_replenish cfg env wb now db hinv

/-! ## C2 counterexample and witness -/

def c2vocab : Vocab :=
  { vocabId := "v2", lemma_ := "ubiquitous", familiarityScore := 150, isKnown := true,
    scoreLocked := true, isTraced := true, noiseManaged := true }

def c2db : DB := { vocabulary := [c2vocab] }

/-- `c2vocab` after the sync's traced-entry unlock: score kept at 150,
`isKnown` forced to false. -/
def c2vocabUnlocked : Vocab :=
  { c2vocab with scoreLocked := false, isKnown := false, noiseManaged := false,
                 updatedAt := 7 }

def emptyNoiseCfg : NoiseCfg :=
  { sourceWordbankId := "", manualAdd := ∅, manualRemove := ∅, wordbankLemmas := fun _ => [] }

/-- C2 counterexample: on a state satisfying the invariant — one locked,
noise-managed, traced entry whose stored score is 150 — a (forced) noise sync
unlocks the entry keeping its score but setting `isKnown := false`, breaking
`isKnown == (score >= 100)`. -/
theorem syncNoise_breaks_score_invariant :
    ScoreInvariant c2db ∧
      ¬ScoreInvariant (applyOp (.syncNoise emptyNoiseCfg true 7) c2db) := by
  constructor
  · decide
  · have hres : (applyOp (.syncNoise emptyNoiseCfg true 7) c2db).vocabulary
        = [c2vocabUnlocked] := by
      show (syncNoiseWordsFromSettings emptyNoiseCfg true 7 c2db).1.vocabulary
        = [c2vocabUnlocked]
      unfold syncNoiseWordsFromSettings
      rw [show noiseTarget emptyNoiseCfg = ∅ by simp [noiseTarget, emptyNoiseCfg],
          Finset.sort_empty]
      simp [noiseCfgKey, c2db, noiseUnlockStep, c2vocab, noiseLockPass, c2vocabUnlocked]
    intro hinv
    have h2 := hinv _ (by rw [hres]; exact List.mem_singleton_self _)
    unfold ScoreConsistent at h2
    simp only [c2vocabUnlocked, c2vocab, KNOWN_THRESHOLD] at h2
    norm_num at h2

def c2rateDB : DB := { vocabulary := [{ vocabId := "v1", lemma_ := "cat" }] }

/-- C2 witness: the preservation theorem applied to a concrete rating. -/
theorem score_invariant_preserved_witness :
    ScoreInvariant (applyOp (Op.rateWord "v1" "known" "e1" 5) c2rateDB) :=
  score_invariant_preserved (Op.rateWord "v1" "known" "e1" 5) c2rateDB (by decide)
    (fun _ _ _ h => Op.noConfusion h)

/-! ## C3: the lock/trace exclusion -/

/-- C3 counterexample: `toggleTrace(id, true)` on a noise-locked entry does
not clear `scoreLocked`, leaving the entry simultaneously locked and
traced. -/
theorem toggleTrace_breaks_trace_exclusion :
    TraceExclusion lockedDB ∧
      ¬TraceExclusion (applyOp (.toggleTrace "v1" true 7) lockedDB) := by
  constructor
  · decide
  · decide

lemma noiseId_inj {a b : String} (h : "noise:" ++ a = "noise:" ++ b) : a = b := by
  have h2 : ("noise:" ++ a).data = ("noise:" ++ b).data := by rw [h]
  simp only [String.data_append] at h2
  exact String.ext (List.append_cancel_left h2)

lemma list_update_ids (vs : List Vocab) (p : Vocab → Bool) (g : Vocab → Vocab)
    (hg : ∀ v, (g v).vocabId = v.vocabId) :
    (vs.map (fun v => if p v then g v else v)).map (fun v => v.vocabId)
      = vs.map (fun v => v.vocabId) := by
  rw [List.map_map]
  apply List.map_congr_left
  intro v _
  simp only [Function.comp]
  by_cases h : p v
  · rw [if_pos h]; exact hg v
  · rw [if_neg h]

lemma notLockedTraced_of_not_locked {v : Vocab} (h : v.scoreLocked = false) :
    NotLockedTraced v := by
  unfold NotLockedTraced
  intro hc
  rw [h] at hc
  exact Bool.false_ne_true hc.1

lemma notLockedTraced_of_not_traced {v : Vocab} (h : v.isTraced = false) :
    NotLockedTraced v := by
  unfold NotLockedTraced
  intro hc
  rw [h] at hc
  exact Bool.false_ne_true hc.2

/-- Exclusion through the lock pass, provided ids are unique in the table,
the freshly created `noise:` ids collide with nothing, and the target lemmas
are distinct. -/
lemma noiseLockPass_exclusion (now : Nat) :
    ∀ (lems : List String) (vs : List Vocab) (w : Nat),
      (∀ v ∈ vs, NotLockedTraced v) →
      (vs.map (fun v => v.vocabId)).Nodup →
      (∀ lem ∈ lems, ∀ v ∈ vs, v.vocabId ≠ "noise:" ++ lem) →
      lems.Nodup →
      ∀ v ∈ (noiseLockPass now lems (vs, w)).1, NotLockedTraced v
  | [], _, _, hx, _, _, _ => hx
  | lem :: rest, vs, w, hx, hnd, hfr, hlnd => by
    unfold noiseLockPass
    cases hfind : vs.find? (fun v => v.lemma_ == lem && v.language == "en") with
    | none =>
      apply noiseLockPass_exclusion now rest _ _ ?_ ?_ ?_ (List.Nodup.of_cons hlnd)
      · intro v hv
        rcases List.mem_append.mp hv with h1 | h2
        · exact hx v h1
        · rw [List.mem_singleton.mp h2]
          exact notLockedTraced_of_not_traced rfl
      · rw [List.map_append]
        refine List.Nodup.append hnd (by simp) ?_
        intro a ha hb
        simp only [List.map_cons, List.map_nil, List.mem_singleton] at hb
        simp only [List.mem_map] at ha
        obtain ⟨u, hu, rfl⟩ := ha
        exact hfr lem (List.mem_cons_self lem rest) u hu hb
      · intro lem2 hlem2 v hv
        rcases List.mem_append.mp hv with h1 | h2
        · exact hfr lem2 (List.mem_cons_of_mem _ hlem2) v h1
        · rw [List.mem_singleton.mp h2]
          intro hcontra
          have heq : lem = lem2 := noiseId_inj hcontra
          exact (List.nodup_cons.mp hlnd).1 (heq ▸ hlem2)
    | some v =>
      dsimp only
      split
      · exact noiseLockPass_exclusion now rest _ _ hx hnd
          (fun l hl => hfr l (List.mem_cons_of_mem _ hl)) (List.Nodup.of_cons hlnd)
      · rename_i hvtr
        apply noiseLockPass_exclusion now rest _ _ ?_ ?_ ?_ (List.Nodup.of_cons hlnd)
        · intro u hu
          simp only [List.mem_map] at hu
          obtain ⟨u0, hu0, rfl⟩ := hu
          by_cases hid : u0.vocabId == v.vocabId
          · rw [if_pos hid]
            have hv_mem : v ∈ vs := List.mem_of_find?_eq_some hfind
            have hu0v : u0 = v :=
              List.inj_on_of_nodup_map hnd hu0 hv_mem (by exact beq_iff_eq.mp hid)
            intro hcontra
            unfold lockUpdate at hcontra
            exact hvtr (hu0v ▸ hcontra.2)
          · rw [if_neg hid]; exact hx u0 hu0
        · rw [list_update_ids vs (fun u => u.vocabId == v.vocabId) (lockUpdate now)
              (fun _ => rfl)]
          exact hnd
        · intro lem2 hlem2 u hu
          simp only [List.mem_map] at hu
          obtain ⟨u0, hu0, rfl⟩ := hu
          have hid2 : (if u0.vocabId == v.vocabId then lockUpdate now u0 else u0).vocabId
              = u0.vocabId := by
            unfold lockUpdate; split <;> rfl
          rw [hid2]
          exact hfr lem2 (List.mem_cons_of_mem _ hlem2) u0 hu0

/-- Fresh ids for the entries the sync's lock pass would create. -/
def FreshNoiseIds (cfg : NoiseCfg) (db : DB) : Prop :=
  ∀ lem ∈ (noiseTarget cfg).sort (· ≤ ·), ∀ v ∈ db.vocabulary,
    v.vocabId ≠ "noise:" ++ lem

lemma unlockStep_fields (target : Finset String) (now : Nat) (v : Vocab) :
    (noiseUnlockStep target now v).1 = v ∨
      (noiseUnlockStep target now v).1.scoreLocked = false := by
  unfold noiseUnlockStep
  split
  · exact Or.inr rfl
  · exact Or.inl rfl

lemma unlockStep_id (target : Finset String) (now : Nat) (v : Vocab) :
    (noiseUnlockStep target now v).1.vocabId = v.vocabId := by
  unfold noiseUnlockStep
  split <;> rfl

lemma traceExclusion_syncNoise_core (cfg : NoiseCfg) (force : Bool) (now : Nat) (db : DB)
    (hnodup : (db.vocabulary.map (fun v => v.vocabId)).Nodup)
    (hfresh : FreshNoiseIds cfg db)
    (hunlocked : ∀ v ∈ db.vocabulary,
      NotLockedTraced (noiseUnlockStep (noiseTarget cfg) now v).1)
    (hpre : TraceExclusion db ∨ force = true) :
    TraceExclusion (syncNoiseWordsFromSettings cfg force now db).1 := by
  unfold syncNoiseWordsFromSettings
  dsimp only
  split
  · rename_i hcond
    rcases hpre with hpre | hforce
    · exact hpre
    · exact absurd (hforce ▸ rfl) hcond.1
  · intro w hw
    refine noiseLockPass_exclusion now _ _ _ ?_ ?_ ?_ (Finset.sort_nodup _ _) w hw
    · intro v hv
      simp only [List.mem_map] at hv
      obtain ⟨u, hu, rfl⟩ := hv
      exact hunlocked u hu
    · rw [List.map_map]
      have : ((fun v => v.vocabId) ∘ fun v => (noiseUnlockStep (noiseTarget cfg) now v).1)
          = fun v : Vocab => v.vocabId := by
        funext v
        exact unlockStep_id _ _ v
      rw [this]
      exact hnodup
    · intro lem hlem v hv
      simp only [List.mem_map] at hv
      obtain ⟨u, hu, rfl⟩ := hv
      rw [unlockStep_id]
      exact hfresh lem hlem u hu

lemma exclusion_flipFold (now : Nat) :
    ∀ (cs : List TraceCand) (db : DB),
      (∀ v ∈ db.vocabulary, NotLockedTraced v) →
      (∀ v ∈ db.vocabulary, (∃ c ∈ cs, v.vocabId = c.vocab.vocabId) →
        v.scoreLocked = false) →
      ∀ v ∈ (cs.foldl (fun acc c =>
          updateVocab c.vocab.vocabId (flipTraced now) acc) db).vocabulary,
        NotLockedTraced v
  | [], _, hx, _ => hx
  | c :: rest, db, hx, hlk => by
    rw [List.foldl_cons]
    apply exclusion_flipFold now rest
    · intro v hv
      obtain ⟨u, hu, rfl⟩ := mem_updateVocab hv
      by_cases hid : u.vocabId == c.vocab.vocabId
      · rw [if_pos hid]
        have hl : u.scoreLocked = false :=
          hlk u hu ⟨c, List.mem_cons_self c rest, beq_iff_eq.mp hid⟩
        exact notLockedTraced_of_not_locked (by unfold flipTraced; exact hl)
      · rw [if_neg hid]; exact hx u hu
    · intro v hv hex
      obtain ⟨u, hu, rfl⟩ := mem_updateVocab hv
      obtain ⟨c2, hc2, hidc2⟩ := hex
      have hfid : (if u.vocabId == c.vocab.vocabId then flipTraced now u else u).vocabId
          = u.vocabId := by unfold flipTraced; split <;> rfl
      have hfl : (if u.vocabId == c.vocab.vocabId then flipTraced now u else u).scoreLocked
          = u.scoreLocked := by unfold flipTraced; split <;> rfl
      rw [hfl]
      exact hlk u hu ⟨c2, List.mem_cons_of_mem _ hc2, (hfid ▸ hidc2)⟩

lemma traceExclusion_replenish (cfg : AutoTraceCfg) (env : Env) (wbSet : Finset String)
    (now : Nat) (db : DB)
    (hinv : TraceExclusion db)
    (hnodup : (db.vocabulary.map (fun v => v.vocabId)).Nodup) :
    TraceExclusion (replenishAutoTrace cfg env wbSet now db).1 := by
  unfold replenishAutoTrace
  dsimp only
  split
  · exact hinv
  · apply exclusion_flipFold now _ db hinv
    rintro v hv ⟨c, hc, hid⟩
    have hc1 := List.mem_of_mem_take hc
    have hc2 := (List.mem_insertionSort candGe).mp hc1
    obtain ⟨u, hu, hcu⟩ := List.mem_map.mp hc2
    have hu2 := List.mem_of_mem_filter hu
    have hu3 := List.mem_of_mem_filter hu2
    have hpred := List.of_mem_filter hu2
    simp only [Bool.and_eq_true, Bool.not_eq_true'] at hpred
    have hvid : v.vocabId = u.vocabId := by
      rw [hid, ← hcu]
    have hvu : v = u := List.inj_on_of_nodup_map hnodup hv hu3 hvid
    rw [hvu]
    exact hpred.1.1.2

lemma traceExclusion_updateVocab {db : DB} (vid : String) (f : Vocab → Vocab)
    (h : TraceExclusion db)
    (hf : ∀ u ∈ db.vocabulary, NotLockedTraced u → NotLockedTraced (f u)) :
    TraceExclusion (updateVocab vid f db) := by
  intro w hw
  obtain ⟨u, hu, rfl⟩ := mem_updateVocab hw
  by_cases hid : u.vocabId == vid
  · rw [if_pos hid]; exact hf u hu (h u hu)
  · rw [if_neg hid]; exact h u hu

lemma traceExclusion_ite (c : Prop) [Decidable c] {a b : DB}
    (ha : TraceExclusion a) (hb : TraceExclusion b) :
    TraceExclusion (if c then a else b) := by
  split
  · exact ha
  · exact hb

lemma traceExclusion_append {db : DB} (vs : List Vocab)
    (h : TraceExclusion db) (hvs : ∀ v ∈ vs, NotLockedTraced v) :
    TraceExclusion { db with vocabulary := db.vocabulary ++ vs } := by
  intro w hw
  rcases List.mem_append.mp hw with h1 | h2
  · exact h w h1
  · exact hvs w h2

lemma traceExclusion_recalc (vid : String) (now : Nat) (db : DB)
    (h : TraceExclusion db) : TraceExclusion (recalcVocabScore vid now db) := by
  unfold recalcVocabScore
  cases findVocab vid db with
  | none => exact h
  | some v =>
    dsimp only
    split
    · exact h
    · apply traceExclusion_updateVocab _ _ h
      intro u _ hu
      exact hu

lemma traceExclusion_reset (vid : String) (now : Nat) (db : DB)
    (h : TraceExclusion db) : TraceExclusion (resetNoiseWordFields vid now db) := by
  apply traceExclusion_updateVocab _ _ h
  intro u _ _
  exact notLockedTraced_of_not_locked rfl

lemma traceExclusion_rateWord (vocabId rating ne : String) (now : Nat) (db : DB)
    (h : TraceExclusion db) : TraceExclusion (handleRateWord vocabId rating ne now db).1 := by
  unfold handleRateWord
  split
  · exact h
  · cases findVocab vocabId db with
    | none => exact h
    | some vocab =>
      dsimp only
      split
      · exact h
      · apply traceExclusion_updateVocab _ _ h
        intro u _ hu
        exact hu

lemma traceExclusion_unlockNoise (vocabId : String) (now : Nat) (db : DB)
    (h : TraceExclusion db) :
    TraceExclusion (handleUnlockNoiseWord vocabId now db).1 := by
  unfold handleUnlockNoiseWord
  split
  · exact h
  · cases findVocab vocabId db with
    | none => exact h
    | some vocab =>
      dsimp only
      split
      · exact h
      · exact traceExclusion_reset _ _ _ h

lemma traceExclusion_insertEnc (vid : String) (enc : Encounter) (now : Nat) (db1 : DB)
    (h : TraceExclusion db1) : TraceExclusion (insertEncounterAndRecalc vid enc now db1) := by
  unfold insertEncounterAndRecalc
  dsimp only
  have h3 : TraceExclusion (recalcVocabScore vid now
      { db1 with encounters := db1.encounters ++ [enc] }) :=
    traceExclusion_recalc _ _ _ h
  split
  · cases findVocab vid (recalcVocabScore vid now
        { db1 with encounters := db1.encounters ++ [enc] }) with
    | none => exact h3
    | some v =>
      dsimp only
      split
      · split
        · exact traceExclusion_reset _ _ _ h3
        · exact h3
      · exact h3
  · exact h3

lemma traceExclusion_upsert (lr sa lang nid : String) (now : Nat) (db : DB)
    (h : TraceExclusion db) : TraceExclusion (upsertVocabBasic lr sa lang nid now db).1 := by
  unfold upsertVocabBasic
  split
  · exact h
  · dsimp only
    cases hf : db.vocabulary.find?
        (fun v => v.lemma_ == normalizeLemma lr && v.language == lang) with
    | some found =>
      dsimp only
      intro w hw
      simp only [List.mem_map] at hw
      obtain ⟨u, hu, rfl⟩ := hw
      by_cases hid : u.vocabId == found.vocabId
      · rw [if_pos hid]
        exact h found (List.mem_of_find?_eq_some hf)
      · rw [if_neg hid]; exact h u hu
    | none =>
      dsimp only
      apply traceExclusion_append _ h
      intro v hv
      rw [List.mem_singleton.mp hv]
      exact notLockedTraced_of_not_locked rfl

lemma traceExclusion_recordWithVocab (env : Env) (p : RecordEncounterPayload)
    (ne : String) (now : Nat) (vid surface : String) (db1 : DB)
    (h : TraceExclusion db1) :
    TraceExclusion (recordWithVocab env p ne now vid surface db1).1 := by
  unfold recordWithVocab
  cases env.urlHost p.pageUrl with
  | none => exact h
  | some _ =>
    dsimp only
    cases dedupLookup p vid now db1 with
    | some recent => exact h
    | none => exact traceExclusion_insertEnc _ _ _ _ h

lemma traceExclusion_recordEncounter (env : Env) (p : RecordEncounterPayload)
    (nv ne : String) (now : Nat) (db : DB) (h : TraceExclusion db) :
    TraceExclusion (handleRecordEncounter env p nv ne now db).1 := by
  unfold handleRecordEncounter
  split
  · exact h
  · cases p.vocabId with
    | none =>
      dsimp only
      cases p.word with
      | none => exact h
      | some w =>
        dsimp only
        split
        · exact h
        · have hup : TraceExclusion (upsertVocabBasic (normalizeLemma w) w
              (jsOrStr p.language "en") nv now db).1 := traceExclusion_upsert _ _ _ _ _ _ h
          cases upsertVocabBasic (normalizeLemma w) w (jsOrStr p.language "en") nv now db |>.2 with
          | error e => exact hup
          | ok v => exact traceExclusion_recordWithVocab env p ne now _ _ _ hup
    | some vid =>
      dsimp only
      cases findVocab vid db with
      | none => exact h
      | some v =>
        dsimp only
        split
        · exact h
        · exact traceExclusion_recordWithVocab env p ne now _ _ _ h

lemma traceExclusion_deleteEnc (eid : String) (now : Nat) (db : DB)
    (h : TraceExclusion db) : TraceExclusion (handleDeleteEncounter eid now db).1 := by
  unfold handleDeleteEncounter
  split
  · exact h
  · cases db.encounters.find? (fun e => e.encounterId == eid) with
    | none => exact h
    | some enc =>
      dsimp only
      have hclean : TraceExclusion (cleanupOrphanedVocab enc.vocabId
          { db with encounters := db.encounters.filter (fun e => e.encounterId != eid) }).1 := by
        unfold cleanupOrphanedVocab
        split
        · intro w hw
          exact h w (List.mem_of_mem_filter hw)
        · exact h
      split
      · exact hclean
      · apply traceExclusion_recalc
        apply traceExclusion_ite
        · apply traceExclusion_ite
          · exact hclean
          · apply traceExclusion_updateVocab _ _ hclean
            intro u _ hu
            exact notLockedTraced_of_not_traced rfl
        · exact hclean

lemma notLockedTraced_mkPromoted (st : ScanSettings) (wbws : List (String × WbWord))
    (s : LemmaStat) (now : Nat) : NotLockedTraced (mkPromotedVocab st wbws s now) := by
  apply notLockedTraced_of_not_traced
  unfold mkPromotedVocab
  rfl

lemma notLockedTraced_mkWordbank (st : ScanSettings) (normalized : String) (w : WbWord)
    (now : Nat) : NotLockedTraced (mkWordbankVocab st normalized w now) := by
  apply notLockedTraced_of_not_traced
  unfold mkWordbankVocab
  rfl

lemma scanWordbankPass_pending_exclusion (st : ScanSettings) (lang : Option String)
    (qualified : Finset String) (now : Nat) (vocab1 : List Vocab) :
    ∀ (wbws : List (String × WbWord)) (stats : List LemmaStat) (added : List String)
      (pending : List Vocab),
      (∀ v ∈ pending, NotLockedTraced v) →
      ∀ v ∈ (scanWordbankPass st lang qualified now vocab1 wbws stats added pending).2,
        NotLockedTraced v
  | [], _, _, _, h => h
  | (normalized, wbw) :: rest, stats, added, pending, h => by
    unfold scanWordbankPass
    split
    · apply scanWordbankPass_pending_exclusion st lang qualified now vocab1 rest _ _ _
      intro v hv
      rcases List.mem_append.mp hv with h1 | h2
      · exact h v h1
      · rw [List.mem_singleton.mp h2]; exact notLockedTraced_mkWordbank _ _ _ _
    · exact scanWordbankPass_pending_exclusion st lang qualified now vocab1 rest _ _ _ h

lemma traceExclusion_promote (st : ScanSettings) (wbws : List (String × WbWord))
    (lang : Option String) (qualified : Finset String) (record : Bool) (now : Nat)
    (db : DB) (h : TraceExclusion db) :
    TraceExclusion (applyOp (.promote st wbws lang qualified record now) db) := by
  unfold applyOp handleScanPromotion
  dsimp only
  have h1 : TraceExclusion (scanPromotionPass st wbws qualified now db) := by
    unfold scanPromotionPass
    apply traceExclusion_append _ h
    intro v hv
    simp only [List.mem_filterMap] at hv
    obtain ⟨s, _, hs⟩ := hv
    split at hs
    · exact (Option.some.inj hs) ▸ notLockedTraced_mkPromoted st wbws s now
    · exact absurd hs (by simp)
  split
  · apply traceExclusion_append
    · exact fun v hv => h1 v hv
    · exact scanWordbankPass_pending_exclusion st lang qualified now _ wbws _ [] [] (by simp)
  · exact fun v hv => h1 v hv

/-- C3 amended, part 1: every modelled engine operation except the trace
toggle preserves the exclusion (for `syncNoiseWords`, assuming unique ids and
that the sync's freshly generated entry ids are fresh — both guaranteed by
the real store's unique primary keys and UUID generation); part 2: a forced
`syncNoiseWords` run *restores* the exclusion broken by `toggleTrace`,
because its unlock pass unlocks every locked, reconciler-owned entry that has
become traced and its lock pass skips traced entries — provided every locked
entry is reconciler-owned (`noiseManaged`), which all locking code paths
ensure.  `toggleTrace` itself violates the claim
(`toggleTrace_breaks_trace_exclusion`): tracing wins only at the next sync. -/
theorem trace_exclusion_amended :
    (∀ (op : Op) (db : DB), op.togglesTrace = false → TraceExclusion db →
      (db.vocabulary.map (fun v => v.vocabId)).Nodup →
      (∀ cfg force now, op = Op.syncNoise cfg force now → FreshNoiseIds cfg db) →
      TraceExclusion (applyOp op db))
    ∧ (∀ (cfg : NoiseCfg) (now : Nat) (db : DB),
      (db.vocabulary.map (fun v => v.vocabId)).Nodup →
      FreshNoiseIds cfg db →
      (∀ v ∈ db.vocabulary, v.scoreLocked = true → v.noiseManaged = true) →
      TraceExclusion (syncNoiseWordsFromSettings cfg true now db).1) := by
  constructor
  · intro op db hop hinv hnodup hfresh
    cases op with
    | recordEncounter env p nv ne now =>
      exact traceExclusion_recordEncounter env p nv ne now db hinv
    | rateWord v r ne now => exact traceExclusion_rateWord v r ne now db hinv
    | toggleTrace v t now => exact absurd hop (by simp [Op.togglesTrace])
    | deleteEncounter e now => exact traceExclusion_deleteEnc e now db hinv
    | unlockNoiseWord v now => exact traceExclusion_unlockNoise v now db hinv
    | syncNoise cfg f now =>
      apply traceExclusion_syncNoise_core cfg f now db hnodup (hfresh cfg f now rfl)
        ?_ (Or.inl hinv)
      intro v hv
      unfold noiseUnlockStep
      split
      · exact notLockedTraced_of_not_locked rfl
      · exact hinv v hv
    | promote st wbws lang q record now =>
      exact traceExclusion_promote st wbws lang q record now db hinv
    | replenish cfg env wb now => exact traceExclusion_replenish cfg env wb now db hinv hnodup
  · intro cfg now db hnodup hfresh hmanaged
    apply traceExclusion_syncNoise_core cfg true now db hnodup hfresh ?_ (Or.inr rfl)
    intro v hv
    unfold noiseUnlockStep
    split
    · exact notLockedTraced_of_not_locked rfl
    · rename_i hcond
      intro hcontra
      exact hcond ⟨hcontra.1, hmanaged v hv hcontra.1, Or.inr hcontra.2⟩

/-- C3 witness: the amended theorem applied to a forced sync on a state
holding a locked-and-traced entry (as `toggleTrace` leaves behind), and to a
concrete non-toggle operation. -/
theorem trace_exclusion_amended_witness :
    TraceExclusion (syncNoiseWordsFromSettings emptyNoiseCfg true 7 c2db).1 ∧
      TraceExclusion (applyOp (Op.rateWord "v1" "known" "e1" 5) c2rateDB) := by
  constructor
  · apply trace_exclusion_amended.2 emptyNoiseCfg 7 c2db (by decide)
    · intro lem hlem v hv
      rw [show noiseTarget emptyNoiseCfg = ∅ by simp [noiseTarget, emptyNoiseCfg],
          Finset.sort_empty] at hlem
      exact absurd hlem (List.not_mem_nil lem)
    · decide
  · apply trace_exclusion_amended.1 (Op.rateWord "v1" "known" "e1" 5) c2rateDB rfl
      (by decide) (by decide)
    intro cfg f n hcontra
    exact Op.noConfusion hcontra

/-! ## C4: the promotion trigger -/

def c4wbws : List (String × WbWord) :=
  [("foo", { wordbankId := "wb1", lemma_ := "foo", surface := "foo",
             sourceWordbankIds := ["wb1"] })]

def c4stat : LemmaStat :=
  { lemmaStatId := "s1", lemma_ := "foo", normalizedLemma := "foo",
    totalCount := 1, pageCount := 1 }

def c4db : DB := { lemmaStats := [c4stat] }

def c4settings : ScanSettings :=
  { promotionMinCount := 6, promotionMinPages := 3, noiseWordbankId := "",
    noiseManualAdd := ∅, noiseManualRemove := ∅ }

/-- C4 counterexample: a LemmaStat with no promotion and no cooldown whose
counts (1, 1) are far below the thresholds (6, 3) is nevertheless promoted by
the scan, because its lemma is listed in an enabled wordbank and has no
vocabulary entry yet (the wordbank pass promotes unconditionally, reason
`wordbank`) — refuting the claimed "if and only if". -/
theorem scan_promotes_wordbank_word_below_thresholds :
    ((handleScanPromotion c4settings c4wbws none {"foo"} 9 c4db).1.lemmaStats.map
        (fun s => s.promotedVocabId)) = [some "wbv:foo"]
      ∧ ¬(c4settings.promotionMinCount ≤ c4stat.totalCount
          ∧ c4settings.promotionMinPages ≤ c4stat.pageCount) := by
  constructor
  · decide
  · decide

lemma markPromoted_id (vocabId reason : String) (now : Nat) (s : LemmaStat) :
    (markPromoted vocabId reason now s).lemmaStatId = s.lemmaStatId := rfl

lemma markPromoted_norm (vocabId reason : String) (now : Nat) (s : LemmaStat) :
    (markPromoted vocabId reason now s).normalizedLemma = s.normalizedLemma := rfl

/-- Row tracking through the wordbank pass: ids and normalized lemmas are
unchanged, promotion marks are only added (never removed), and a new mark can
only appear on a row whose normalized lemma is a wordbank key. -/
lemma scanWordbankPass_stats_track (st : ScanSettings) (lang : Option String)
    (qualified : Finset String) (now : Nat) (vocab1 : List Vocab) :
    ∀ (wbws : List (String × WbWord)) (stats : List LemmaStat) (added : List String)
      (pending : List Vocab),
      ∀ s' ∈ (scanWordbankPass st lang qualified now vocab1 wbws stats added pending).1,
        ∃ s0 ∈ stats, s'.lemmaStatId = s0.lemmaStatId
          ∧ s'.normalizedLemma = s0.normalizedLemma
          ∧ (s0.promotedVocabId.isSome = true → s'.promotedVocabId.isSome = true)
          ∧ (s'.promotedVocabId.isSome = true → s0.promotedVocabId.isSome = true
              ∨ ∃ p ∈ wbws, p.1 = s'.normalizedLemma)
  | [], stats, added, pending => by
    intro s' hs'
    exact ⟨s', hs', rfl, rfl, fun h => h, fun h => Or.inl h⟩
  | (normalized, wbw) :: rest, stats, added, pending => by
    intro s' hs'
    unfold scanWordbankPass at hs'
    split at hs'
    · obtain ⟨s1, hs1, hid, hnorm, hmono, hback⟩ :=
        scanWordbankPass_stats_track st lang qualified now vocab1 rest _ _ _ s' hs'
      simp only [List.mem_map] at hs1
      obtain ⟨s0, hs0, rfl⟩ := hs1
      by_cases hc : s0.normalizedLemma == normalized ∧ s0.promotedVocabId.isNone = true
      · rw [if_pos hc] at hid hnorm hmono hback
        refine ⟨s0, hs0, hid, hnorm, fun _ => hmono (by rfl), fun h => ?_⟩
        right
        exact ⟨(normalized, wbw), List.mem_cons_self _ _,
          by rw [hnorm, markPromoted_norm]; exact (beq_iff_eq.mp hc.1).symm⟩
      · rw [if_neg hc] at hid hnorm hmono hback
        refine ⟨s0, hs0, hid, hnorm, hmono, fun h => ?_⟩
        rcases hback h with h1 | ⟨p, hp, hpe⟩
        · exact Or.inl h1
        · exact Or.inr ⟨p, List.mem_cons_of_mem _ hp, hpe⟩
    · obtain ⟨s0, hs0, hid, hnorm, hmono, hback⟩ :=
        scanWordbankPass_stats_track st lang qualified now vocab1 rest _ _ _ s' hs'
      refine ⟨s0, hs0, hid, hnorm, hmono, fun h => ?_⟩
      rcases hback h with h1 | ⟨p, hp, hpe⟩
      · exact Or.inl h1
      · exact Or.inr ⟨p, List.mem_cons_of_mem _ hp, hpe⟩

/-- C4 amended: for a post-aggregation LemmaStat with no existing promotion
and no active cooldown whose lemma is *not* listed in any enabled wordbank,
the scan promotes it if and only if `totalCount >= promotionMinCount` and
`pageCount >= promotionMinPages` (wordbank-listed lemmas are instead promoted
unconditionally the first time they are seen — the counterexample); and a
threshold-promoted entry created fresh for a lemma outside the noise target
set (not manually noise-added; not noise-wordbank-listed, vacuous for a
non-wordbank word) starts with `familiarityScore = 0` and
`scoreLocked = false` (and `isKnown = false`). -/
theorem scan_threshold_promotion_iff (st : ScanSettings) (wbws : List (String × WbWord))
    (lang : Option String) (qualified : Finset String) (now : Nat) (db : DB)
    (s : LemmaStat)
    (hs : s ∈ db.lemmaStats)
    (hq : s.normalizedLemma ∈ qualified)
    (hnp : s.promotedVocabId = none)
    (hcd : (match s.cooldownUntil with | none => True | some c => c < now))
    (hnw : ∀ p ∈ wbws, p.1 ≠ s.normalizedLemma)
    (hnodup : (db.lemmaStats.map (fun t => t.lemmaStatId)).Nodup) :
    (∀ s' ∈ (handleScanPromotion st wbws lang qualified now db).1.lemmaStats,
        s'.lemmaStatId = s.lemmaStatId →
        (s'.promotedVocabId.isSome = true ↔
          (st.promotionMinCount ≤ s.totalCount ∧ st.promotionMinPages ≤ s.pageCount)))
    ∧ ((st.promotionMinCount ≤ s.totalCount ∧ st.promotionMinPages ≤ s.pageCount) →
        (existingVocabFor db s).isNone = true →
        s.normalizedLemma ∉ st.noiseManualAdd →
        mkPromotedVocab st wbws s now
            ∈ (handleScanPromotion st wbws lang qualified now db).1.vocabulary
          ∧ (mkPromotedVocab st wbws s now).familiarityScore = 0
          ∧ (mkPromotedVocab st wbws s now).scoreLocked = false
          ∧ (mkPromotedVocab st wbws s now).isKnown = false) := by
  have hwb_none : wbLookup wbws s.normalizedLemma = none := by
    unfold wbLookup
    rw [List.find?_eq_none.mpr]
    · rfl
    · intro p hp
      simp only [beq_iff_eq]
      exact hnw p hp
  have hcand : promotionCandidate st now s = true ↔
      (st.promotionMinCount ≤ s.totalCount ∧ st.promotionMinPages ≤ s.pageCount) := by
    unfold promotionCandidate
    rw [hnp]
    cases hc : s.cooldownUntil with
    | none => simp
    | some c =>
      rw [hc] at hcd
      have hdec : decide (c < now) = true := decide_eq_true hcd
      simp [hdec]
  constructor
  · intro s' hs' hid
    unfold handleScanPromotion at hs'
    dsimp only at hs'
    obtain ⟨s1, hs1, hid1, hnorm1, hmono1, hback1⟩ :=
      scanWordbankPass_stats_track st lang qualified now _ wbws _ [] [] s' hs'
    unfold scanPromotionPass at hs1
    dsimp only at hs1
    simp only [List.mem_map] at hs1
    obtain ⟨s0, hs0, rfl⟩ := hs1
    have hid0 : s0.lemmaStatId = s.lemmaStatId := by
      by_cases hc : s0.normalizedLemma ∈ qualified ∧ promotionCandidate st now s0 = true
      · rw [if_pos hc] at hid1
        exact hid1.symm.trans hid
      · rw [if_neg hc] at hid1
        exact hid1.symm.trans hid
    have hs0s : s0 = s := List.inj_on_of_nodup_map hnodup hs0 hs hid0
    subst hs0s
    constructor
    · intro hsome
      rcases hback1 hsome with h1 | ⟨p, hp, hpe⟩
      · by_cases hc : s0.normalizedLemma ∈ qualified ∧ promotionCandidate st now s0 = true
        · exact hcand.mp hc.2
        · rw [if_neg hc] at h1
          rw [hnp] at h1
          exact absurd h1 (by simp)
      · rw [hnorm1] at hpe
        by_cases hc : s0.normalizedLemma ∈ qualified ∧ promotionCandidate st now s0 = true
        · rw [if_pos hc] at hpe
          rw [markPromoted_norm] at hpe
          exact absurd hpe (hnw p hp)
        · rw [if_neg hc] at hpe
          exact absurd hpe (hnw p hp)
    · intro hth
      apply hmono1
      rw [if_pos ⟨hq, hcand.mpr hth⟩]
      rfl
  · intro hth hex hnn
    have hlock : shouldLockAsNoise st wbws s = false := by
      unfold shouldLockAsNoise
      rw [hwb_none]
      split
      · rfl
      · simp [hnn]
    refine ⟨?_, ?_, ?_, ?_⟩
    · unfold handleScanPromotion
      dsimp only
      unfold scanPromotionPass
      dsimp only
      apply List.mem_append.mpr
      right
      apply List.mem_filterMap.mpr
      refine ⟨s, hs, ?_⟩
      rw [if_pos ⟨⟨hq, hcand.mpr hth⟩, hex⟩]
    · unfold mkPromotedVocab
      rw [hlock]
      rfl
    · unfold mkPromotedVocab
      rw [hlock]
    · unfold mkPromotedVocab
      rw [hlock]

def c4exStat : LemmaStat :=
  { lemmaStatId := "s2", lemma_ := "ubiquitous", normalizedLemma := "ubiquitous",
    totalCount := 6, pageCount := 3 }

def c4exDB : DB := { lemmaStats := [c4exStat] }

/-- C4 witness: the spec's worked example — counts (6, 3) against thresholds
(6, 3), lemma in no wordbank and not noise-targeted — promotes with a fresh
entry at score 0, unlocked. -/
theorem scan_threshold_promotion_iff_witness :
    mkPromotedVocab c4settings [] c4exStat 9
        ∈ (handleScanPromotion c4settings [] none {"ubiquitous"} 9 c4exDB).1.vocabulary
      ∧ (mkPromotedVocab c4settings [] c4exStat 9).familiarityScore = 0
      ∧ (mkPromotedVocab c4settings [] c4exStat 9).scoreLocked = false
      ∧ (mkPromotedVocab c4settings [] c4exStat 9).isKnown = false :=
  (scan_threshold_promotion_iff c4settings [] none {"ubiquitous"} 9 c4exDB c4exStat
    (by decide) (by decide) rfl trivial (by intro p hp; exact absurd hp (List.not_mem_nil p))
    (by decide)).2 (by decide) (by decide) (by decide)

/-! ## C8: the auto-trace pool bound -/

lemma countP_map_update (p : Vocab → Bool) (vid : String) (g : Vocab → Vocab)
    (vs : List Vocab) :
    (vs.map (fun v => if v.vocabId == vid then g v else v)).countP p
      ≤ vs.countP p + vs.countP (fun v => v.vocabId == vid) := by
  induction vs with
  | nil => simp
  | cons v vs ih =>
    simp only [List.map_cons, List.countP_cons]
    split_ifs <;> omega

lemma countP_id_le_one (vid : String) (vs : List Vocab)
    (hnodup : (vs.map (fun v => v.vocabId)).Nodup) :
    vs.countP (fun v => v.vocabId == vid) ≤ 1 := by
  induction vs with
  | nil => simp
  | cons v vs ih =>
    simp only [List.map_cons, List.nodup_cons, List.mem_map] at hnodup
    rw [List.countP_cons]
    by_cases hc : (v.vocabId == vid) = true
    · have hz : vs.countP (fun w => w.vocabId == vid) = 0 := by
        rw [List.countP_eq_zero]
        intro w hw
        simp only [beq_iff_eq]
        intro he
        exact hnodup.1 ⟨w, hw, he.trans (eq_of_beq hc).symm⟩
      rw [hz, if_pos hc]
    · rw [if_neg hc]
      have := ih hnodup.2
      omega

lemma activeTraced_update_le (vid : String) (now : Nat) (db : DB)
    (hnodup : (db.vocabulary.map (fun v => v.vocabId)).Nodup) :
    activeTracedCount (updateVocab vid (flipTraced now) db)
      ≤ activeTracedCount db + 1 := by
  unfold activeTracedCount updateVocab
  dsimp only
  rw [← List.countP_eq_length_filter, ← List.countP_eq_length_filter]
  exact le_trans (countP_map_update _ vid _ _)
    (Nat.add_le_add_left (countP_id_le_one vid _ hnodup) _)

lemma activeTraced_fold_le (now : Nat) (L : List TraceCand) (db : DB)
    (hnodup : (db.vocabulary.map (fun v => v.vocabId)).Nodup) :
    activeTracedCount
        (L.foldl (fun acc c => updateVocab c.vocab.vocabId (flipTraced now) acc) db)
      ≤ activeTracedCount db + L.length := by
  induction L generalizing db with
  | nil => simp
  | cons c L ih =>
    simp only [List.foldl_cons, List.length_cons]
    have hN : ((updateVocab c.vocab.vocabId (flipTraced now) db).vocabulary.map
        (fun v => v.vocabId)).Nodup := by
      rw [updateVocab_ids c.vocab.vocabId (flipTraced now) db (fun v => rfl)]
      exact hnodup
    have h1 := ih (updateVocab c.vocab.vocabId (flipTraced now) db) hN
    have h2 := activeTraced_update_le c.vocab.vocabId now db hnodup
    omega

/-- C8: auto-trace replenishment flips `isTraced` on at most
`poolSize - activeTracedCount` candidates (and on none when that difference is
not positive), so for every starting state with unique vocab ids in which the
active traced count is at most `poolSize`, the count after replenishment never
exceeds `poolSize`. -/
theorem replenish_respects_pool_size (cfg : AutoTraceCfg) (env : Env)
    (wordbankSet : Finset String) (now : Nat) (db : DB)
    (hnodup : (db.vocabulary.map (fun v => v.vocabId)).Nodup)
    (hstart : activeTracedCount db ≤ cfg.poolSize) :
    (replenishAutoTrace cfg env wordbankSet now db).2
        ≤ ((cfg.poolSize : Int) - (activeTracedCount db : Int)).toNat
      ∧ activeTracedCount (replenishAutoTrace cfg env wordbankSet now db).1
          ≤ cfg.poolSize := by
  unfold replenishAutoTrace
  dsimp only
  split
  · exact ⟨Nat.zero_le _, hstart⟩
  · rename_i hpos
    constructor
    · rw [List.length_take]
      exact le_trans (Nat.min_le_left _ _) (le_of_eq rfl)
    · refine le_trans (activeTraced_fold_le now _ db hnodup) ?_
      rw [List.length_take]
      omega

def c8vocab : Vocab :=
  { vocabId := "v8", lemma_ := "hello", surface := "hello", isTraced := true }

def c8db : DB := { vocabulary := [c8vocab] }

/-- C8 witness: a single active traced entry against the default pool size 30
satisfies the hypotheses; the flip count is bounded by the 29 free slots and
the pool stays within bounds. -/
theorem replenish_respects_pool_size_witness :
    (replenishAutoTrace {} c10env ∅ 0 c8db).2
        ≤ ((({} : AutoTraceCfg).poolSize : Int) - (activeTracedCount c8db : Int)).toNat
      ∧ activeTracedCount (replenishAutoTrace {} c10env ∅ 0 c8db).1
          ≤ ({} : AutoTraceCfg).poolSize :=
  replenish_respects_pool_size {} c10env ∅ 0 c8db (by decide) (by decide)

/-! ## C5: the draw count -/

/-- The eligible set exactly as the claim words it: all candidates
(`!deleted && !scoreLocked && !isKnown`) minus the excluded ids — with no
real-time score filter.  Spec-side definition, to be compared with
`drawEligible`. -/
def specDrawEligible (excl : Finset String) (db : DB) : List Vocab :=
  (drawCandidates db).filter (fun v => !(decide (v.vocabId ∈ excl)))

def c5vocab : Vocab :=
  { vocabId := "v5", lemma_ := "big", surface := "big", isTraced := true }

def c5enc (i : String) : Encounter :=
  { encounterId := i, vocabId := "v5", source := "rate_known" }

def c5encs : List Encounter :=
  [c5enc "e0", c5enc "e1", c5enc "e2", c5enc "e3", c5enc "e4",
   c5enc "e5", c5enc "e6", c5enc "e7", c5enc "e8", c5enc "e9"]

def c5db : DB := { vocabulary := [c5vocab], encounters := c5encs }

/-- C5 counterexample: an entry that is not deleted, not locked, not known and
not excluded — eligible per the claim — is skipped by the draw, because its
recomputed real-time score (10 `rate_known` encounters at weight 5 with traced
multiplier 2 = 100) is not below the known threshold: the draw returns 0 cards
where the claim demands `min(1, 1) = 1`. -/
theorem drawCard_misses_spec_eligible :
    (handleDrawCard 1 true ∅ (fun _ q => q) 0 c5db).length
      ≠ min 1 (specDrawEligible ∅ c5db).length := by
  have hsrc : (encountersOf c5vocab.vocabId c5db).map (fun e => e.source)
      = List.replicate 10 "rate_known" := by decide
  have hm : (0:ℚ) ≤ multiplierOf c5vocab.isTraced := by
    unfold multiplierOf
    split <;> norm_num
  have hscore : drawScore c5db c5vocab = 100 := by
    unfold drawScore
    rw [hsrc, calculateWeightedScore_eq_sum _ _ hm]
    simp [scoringWeight, multiplierOf, c5vocab, List.map_replicate,
      List.sum_replicate]
    norm_num
  have hcand : drawCandidates c5db = [c5vocab] := by decide
  have helig : drawEligible ∅ c5db = [] := by
    unfold drawEligible
    rw [hcand]
    simp [hscore, KNOWN_THRESHOLD]
  have hspec : specDrawEligible ∅ c5db = [c5vocab] := by
    unfold specDrawEligible
    rw [hcand]
    simp
  unfold handleDrawCard
  dsimp only
  rw [hcand, helig, hspec]
  simp

lemma length_sort_take {a : Type} (r : a → a → Prop) [DecidableRel r]
    (l : List a) (n : Nat) :
    ((l.insertionSort r).take n).length = min n l.length := by
  rw [List.length_take, List.length_insertionSort]

lemma nodup_ids_of_sort_take {a b : Type} (r : a → a → Prop) [DecidableRel r]
    (l : List a) (f : a → b) (n : Nat) (h : (l.map f).Nodup) :
    (((l.insertionSort r).take n).map f).Nodup := by
  have hperm : List.Perm ((l.insertionSort r).map f) (l.map f) :=
    (List.perm_insertionSort r l).map f
  have hsorted : ((l.insertionSort r).map f).Nodup := hperm.nodup_iff.mpr h
  have hsub : List.Sublist (((l.insertionSort r).take n).map f)
      ((l.insertionSort r).map f) :=
    (List.take_sublist _ _).map f
  exact hsorted.sublist hsub

lemma map_fst_of_enum_map {a : Type} (g : Nat × a → ℚ) (l : List a) :
    (l.enum.map (fun p => (p.2, g p))).map (fun p => p.1) = l := by
  rw [List.map_map]
  have hc : ((fun p : a × ℚ => p.1) ∘ (fun p : Nat × a => (p.2, g p)))
      = Prod.snd := rfl
  rw [hc, List.enum_map_snd]

/-- C5 amended: for every count `n`, mode, exclusion set and sampling-key
function, `handleDrawCard` returns exactly `min n eligibleCount` cards with
pairwise-distinct vocab ids (given unique ids in the store), where the
eligible set is the claim's set (`!deleted && !scoreLocked && !isKnown`,
minus the excluded ids) *further filtered* by recomputed real-time weighted
score strictly below the known threshold. -/
theorem drawCard_count_amended (n : Nat) (auto : Bool) (excl : Finset String)
    (keyOf : Nat → ℚ → ℚ) (now : Nat) (db : DB)
    (hnodup : (db.vocabulary.map (fun v => v.vocabId)).Nodup) :
    (handleDrawCard n auto excl keyOf now db).length
        = min n (drawEligible excl db).length
      ∧ ((handleDrawCard n auto excl keyOf now db).map
          (fun e => e.vocab.vocabId)).Nodup
      ∧ drawEligible excl db
          = (specDrawEligible excl db).filter
              (fun v => decide (drawScore db v < KNOWN_THRESHOLD)) := by
  have hfilt : drawEligible excl db
      = (specDrawEligible excl db).filter
          (fun v => decide (drawScore db v < KNOWN_THRESHOLD)) := by
    unfold drawEligible specDrawEligible
    rw [List.filter_filter]
    exact List.filter_congr (fun x _ => Bool.and_comm _ _)
  have hsub : List.Sublist (drawEligible excl db) db.vocabulary := by
    unfold drawEligible drawCandidates
    exact (List.filter_sublist _).trans (List.filter_sublist _)
  have hids : ((drawEligible excl db).map (fun v => v.vocabId)).Nodup :=
    hnodup.sublist (hsub.map _)
  have hsc : (drawScored excl now db).map (fun e => e.vocab.vocabId)
      = (drawEligible excl db).map (fun v => v.vocabId) := by
    unfold drawScored
    rw [List.map_map]
    rfl
  refine ⟨?_, ?_, hfilt⟩
  · unfold handleDrawCard
    dsimp only
    split
    · rename_i hemp
      rw [List.isEmpty_iff] at hemp
      have he : drawEligible excl db = [] := by
        unfold drawEligible
        rw [hemp]
        rfl
      rw [he]
      simp
    · split
      · rename_i helem
        rw [List.isEmpty_iff] at helem
        rw [helem]
        simp
      · split
        · unfold pickTopN
          rw [length_sort_take]
          unfold drawScored
          rw [List.length_map]
        · unfold weightedSampleWithoutReplacement
          dsimp only
          rw [List.length_map, length_sort_take, List.length_map,
            List.enum_length]
          unfold drawScored
          rw [List.length_map]
  · unfold handleDrawCard
    dsimp only
    split
    · simp
    · split
      · simp
      · have hscored : ((drawScored excl now db).map
            (fun e => e.vocab.vocabId)).Nodup := by
          rw [hsc]
          exact hids
        split
        · unfold pickTopN
          exact nodup_ids_of_sort_take prioGe (drawScored excl now db)
            (fun e => e.vocab.vocabId) n hscored
        · unfold weightedSampleWithoutReplacement
          dsimp only
          rw [List.map_map]
          have hkeyed : (((drawScored excl now db).enum.map
              (fun p => (p.2, keyOf p.1 (jsMax (1/1000) p.2.priority)))).map
                (fun p => p.1.vocab.vocabId)).Nodup := by
            have h1 : ((drawScored excl now db).enum.map
                (fun p => (p.2, keyOf p.1 (jsMax (1/1000) p.2.priority)))).map
                  (fun p => p.1.vocab.vocabId)
                = (((drawScored excl now db).enum.map
                    (fun p => (p.2, keyOf p.1 (jsMax (1/1000) p.2.priority)))).map
                      (fun p => p.1)).map (fun e => e.vocab.vocabId) := by
              simp only [List.map_map]
              rfl
            rw [h1, map_fst_of_enum_map]
            exact hscored
          exact nodup_ids_of_sort_take keyGe _ (fun p => p.1.vocab.vocabId)
            n hkeyed

def c5wvocab : Vocab := { vocabId := "w5", lemma_ := "cat", surface := "cat" }

def c5wdb : DB := { vocabulary := [c5wvocab] }

/-- C5 witness: a store with one unlocked, unknown, undeleted entry and no
encounters — the draw with `n = 2` in auto mode returns exactly
`min 2 1` cards, with distinct ids, and the eligible sets agree. -/
theorem drawCard_count_amended_witness :
    (handleDrawCard 2 true ∅ (fun _ q => q) 0 c5wdb).length
        = min 2 (drawEligible ∅ c5wdb).length
      ∧ ((handleDrawCard 2 true ∅ (fun _ q => q) 0 c5wdb).map
          (fun e => e.vocab.vocabId)).Nodup
      ∧ drawEligible ∅ c5wdb
          = (specDrawEligible ∅ c5wdb).filter
              (fun v => decide (drawScore c5wdb v < KNOWN_THRESHOLD)) :=
  drawCard_count_amended 2 true ∅ (fun _ q => q) 0 c5wdb (by decide)

/-! ## C6: auto mode is the deterministic top-N by priority with a stable
id tie-break -/

/-- The spec-side deterministic order: higher priority first, ties broken by
ascending entry id.  On id-distinct inputs the stable descending sort by
priority alone coincides with sorting by this order. -/
def lexGe (a b : ScoredEntry) : Prop :=
  b.priority < a.priority
    ∨ (a.priority = b.priority ∧ a.vocab.vocabId ≤ b.vocab.vocabId)

instance : DecidableRel lexGe := fun a b =>
  inferInstanceAs (Decidable (b.priority < a.priority
    ∨ (a.priority = b.priority ∧ a.vocab.vocabId ≤ b.vocab.vocabId)))

lemma lexGe_le {a b : ScoredEntry} (h : lexGe a b) : b.priority ≤ a.priority := by
  rcases h with h | ⟨h, _⟩
  · exact le_of_lt h
  · exact le_of_eq h.symm

instance : IsTotal ScoredEntry lexGe :=
  ⟨fun a b => by
    rcases lt_trichotomy a.priority b.priority with h | h | h
    · exact Or.inr (Or.inl h)
    · rcases le_total a.vocab.vocabId b.vocab.vocabId with hi | hi
      · exact Or.inl (Or.inr ⟨h, hi⟩)
      · exact Or.inr (Or.inr ⟨h.symm, hi⟩)
    · exact Or.inl (Or.inl h)⟩

instance : IsTrans ScoredEntry lexGe :=
  ⟨fun a b c hab hbc => by
    rcases hab with hab | ⟨hab, hab2⟩
    · rcases hbc with hbc | ⟨hbc, _⟩
      · exact Or.inl (lt_trans hbc hab)
      · exact Or.inl (hbc ▸ hab)
    · rcases hbc with hbc | ⟨hbc, hbc2⟩
      · exact Or.inl (hab ▸ hbc)
      · exact Or.inr ⟨hab.trans hbc, hab2.trans hbc2⟩⟩

lemma prioGe_iff_lexGe (x y : ScoredEntry)
    (h : x.vocab.vocabId < y.vocab.vocabId) : prioGe x y ↔ lexGe x y := by
  unfold prioGe lexGe
  constructor
  · intro hp
    rcases lt_or_eq_of_le hp with h1 | h1
    · exact Or.inl h1
    · exact Or.inr ⟨h1.symm, le_of_lt h⟩
  · intro hl
    rcases hl with h1 | ⟨h1, _⟩
    · exact le_of_lt h1
    · exact le_of_eq h1.symm

lemma orderedInsert_stable (x : ScoredEntry) :
    ∀ (m : List ScoredEntry), (∀ y ∈ m, x.vocab.vocabId < y.vocab.vocabId) →
      List.orderedInsert prioGe x m = List.orderedInsert lexGe x m
  | [], _ => rfl
  | y :: m, h => by
      simp only [List.orderedInsert]
      by_cases hc : prioGe x y
      · rw [if_pos hc,
          if_pos ((prioGe_iff_lexGe x y (h y (List.mem_cons_self y m))).mp hc)]
      · rw [if_neg hc,
          if_neg (fun hl => hc
            ((prioGe_iff_lexGe x y (h y (List.mem_cons_self y m))).mpr hl)),
          orderedInsert_stable x m (fun z hz => h z (List.mem_cons_of_mem y hz))]

lemma insertionSort_stable :
    ∀ (l : List ScoredEntry),
      List.Pairwise (fun a b => a.vocab.vocabId < b.vocab.vocabId) l →
      l.insertionSort prioGe = l.insertionSort lexGe
  | [], _ => rfl
  | x :: l, h => by
      simp only [List.insertionSort]
      rw [insertionSort_stable l (List.pairwise_cons.mp h).2]
      exact orderedInsert_stable x _ (fun y hy =>
        (List.pairwise_cons.mp h).1 y ((List.mem_insertionSort lexGe).mp hy))

/-- C6: given the store in primary-key (ascending vocab id) order — the order
Dexie hands the handler the candidates in — auto-mode draw is deterministic:
the composite priority is
`0.45*srsDue + 0.25*difficulty + 0.20*urgency + 0.10*recency`
(srsDue = 0.5 with no next-review date set, 0 when set but not yet due,
min(1, daysOverdue/7) when overdue; difficulty = 1 - score/100; urgency = 1.0
if traced else 0.3; recency = min(1, daysSinceLastSeen/14)); the returned list
is exactly the first `n` of the eligible entries sorted descending by
priority with ties broken by ascending entry id; it is sorted descending by
priority; and every returned entry has priority at least that of every
eligible entry left out. -/
theorem drawCard_auto_deterministic (n : Nat) (excl : Finset String)
    (keyOf : Nat → ℚ → ℚ) (now : Nat) (db : DB)
    (hsorted : List.Pairwise (fun a b => a.vocabId < b.vocabId) db.vocabulary) :
    (∀ v s, priorityOf now v s =
        (if 0 < v.nextReviewDate ∧ v.nextReviewDate < now then
            jsMin 1 (((now : ℚ) - (v.nextReviewDate : ℚ)) / (7*24*60*60*1000))
          else if v.nextReviewDate = 0 then 1/2 else 0) * (45/100)
        + (1 - s / 100) * (25/100)
        + (if v.isTraced then 1 else 3/10) * (20/100)
        + (jsMin 1 ((((now : ℚ) - ((v.lastSeenAt.getD v.createdAt) : ℚ))
            / (24*60*60*1000)) / 14)) * (10/100))
      ∧ handleDrawCard n true excl keyOf now db
          = ((drawScored excl now db).insertionSort lexGe).take n
      ∧ List.Pairwise (fun a b => b.priority ≤ a.priority)
          (handleDrawCard n true excl keyOf now db)
      ∧ (∀ x ∈ handleDrawCard n true excl keyOf now db,
          ∀ y ∈ ((drawScored excl now db).insertionSort lexGe).drop n,
            y.priority ≤ x.priority) := by
  have hform : ∀ v s, priorityOf now v s =
      (if 0 < v.nextReviewDate ∧ v.nextReviewDate < now then
          jsMin 1 (((now : ℚ) - (v.nextReviewDate : ℚ)) / (7*24*60*60*1000))
        else if v.nextReviewDate = 0 then 1/2 else 0) * (45/100)
      + (1 - s / 100) * (25/100)
      + (if v.isTraced then 1 else 3/10) * (20/100)
      + (jsMin 1 ((((now : ℚ) - ((v.lastSeenAt.getD v.createdAt) : ℚ))
          / (24*60*60*1000)) / 14)) * (10/100) := fun v s => rfl
  have hsubel : List.Sublist (drawEligible excl db) db.vocabulary := by
    unfold drawEligible drawCandidates
    exact (List.filter_sublist _).trans (List.filter_sublist _)
  have hpe : List.Pairwise (fun a b => a.vocabId < b.vocabId)
      (drawEligible excl db) := hsorted.sublist hsubel
  have hpair : List.Pairwise (fun a b => a.vocab.vocabId < b.vocab.vocabId)
      (drawScored excl now db) := by
    unfold drawScored
    rw [List.pairwise_map]
    exact hpe
  have hstab : (drawScored excl now db).insertionSort prioGe
      = (drawScored excl now db).insertionSort lexGe :=
    insertionSort_stable _ hpair
  have hmain : handleDrawCard n true excl keyOf now db
      = ((drawScored excl now db).insertionSort lexGe).take n := by
    unfold handleDrawCard
    dsimp only
    split
    · rename_i hemp
      rw [List.isEmpty_iff] at hemp
      have hel : drawEligible excl db = [] := by
        unfold drawEligible
        rw [hemp]
        rfl
      have hsc0 : drawScored excl now db = [] := by
        unfold drawScored
        rw [hel]
        rfl
      rw [hsc0]
      simp
    · split
      · rename_i helem
        rw [List.isEmpty_iff] at helem
        have hsc0 : drawScored excl now db = [] := by
          unfold drawScored
          rw [helem]
          rfl
        rw [hsc0]
        simp
      · rw [if_pos rfl]
        unfold pickTopN
        rw [hstab]
  have hsortfull : List.Sorted lexGe
      ((drawScored excl now db).insertionSort lexGe) :=
    List.sorted_insertionSort lexGe _
  refine ⟨hform, hmain, ?_, ?_⟩
  · rw [hmain]
    have htk : List.Pairwise lexGe
        (((drawScored excl now db).insertionSort lexGe).take n) :=
      List.Pairwise.sublist (List.take_sublist _ _) hsortfull
    exact htk.imp (fun h => lexGe_le h)
  · intro x hx y hy
    rw [hmain] at hx
    have hsplit := List.pairwise_append.mp
      (by rw [List.take_append_drop]
          exact (hsortfull : List.Pairwise lexGe _)
        : List.Pairwise lexGe
            ((((drawScored excl now db).insertionSort lexGe).take n)
              ++ (((drawScored excl now db).insertionSort lexGe).drop n)))
    exact lexGe_le (hsplit.2.2 x hx y hy)

def c6vocabA : Vocab := { vocabId := "a1", lemma_ := "ant", surface := "ant" }

def c6vocabB : Vocab := { vocabId := "a2", lemma_ := "bee", surface := "bee" }

def c6db : DB := { vocabulary := [c6vocabA, c6vocabB] }

/-- C6 witness: two equal-priority entries in primary-key order — the draw of
one card is the deterministic top-1 of the id-tie-broken descending sort,
sorted, and priority-dominant over the dropped entry. -/
theorem drawCard_auto_deterministic_witness :
    (∀ v s, priorityOf 0 v s =
        (if 0 < v.nextReviewDate ∧ v.nextReviewDate < 0 then
            jsMin 1 (((0 : ℚ) - (v.nextReviewDate : ℚ)) / (7*24*60*60*1000))
          else if v.nextReviewDate = 0 then 1/2 else 0) * (45/100)
        + (1 - s / 100) * (25/100)
        + (if v.isTraced then 1 else 3/10) * (20/100)
        + (jsMin 1 ((((0 : ℚ) - ((v.lastSeenAt.getD v.createdAt) : ℚ))
            / (24*60*60*1000)) / 14)) * (10/100))
      ∧ handleDrawCard 1 true ∅ (fun _ q => q) 0 c6db
          = ((drawScored ∅ 0 c6db).insertionSort lexGe).take 1
      ∧ List.Pairwise (fun a b => b.priority ≤ a.priority)
          (handleDrawCard 1 true ∅ (fun _ q => q) 0 c6db)
      ∧ (∀ x ∈ handleDrawCard 1 true ∅ (fun _ q => q) 0 c6db,
          ∀ y ∈ ((drawScored ∅ 0 c6db).insertionSort lexGe).drop 1,
            y.priority ≤ x.priority) :=
  drawCard_auto_deterministic 1 ∅ (fun _ q => q) 0 c6db
    (by
      refine List.Pairwise.cons ?_ (List.pairwise_singleton _ _)
      intro b hb
      rw [List.mem_singleton] at hb
      subst hb
      show ("a1" : String) < "a2"
      rw [String.lt_iff_toList_lt]
      decide)

end Traced
